import Mathlib

/-!
Verification of the project-analyzer engine (Python source) against its
natural-language specification.  The relevant parts of the code are shallowly
embedded: Python AST nodes become an inductive type, the `ast.NodeVisitor`
subclasses become state-passing traversals, and the dependency-graph builder
becomes a fold over an association list of files.  Line/column information is
omitted from the embedding: no claim under scrutiny depends on source
locations (they flow into `CodeLocation` fields only).
-/

namespace PA

/-- Expression contexts (`ast.Load` / `ast.Store`). -/
inductive PyCtx where
  | load
  | store
deriving DecidableEq

mutual
/-- Fragment of the Python expression AST used by the analyzers
(`ast.Name`, `ast.Constant`, `ast.BoolOp`, `ast.Call`, `ast.Attribute`,
`ast.Tuple`, `ast.Yield`).  Child-field order of each constructor follows
CPython's `_fields`, which fixes the `generic_visit` traversal order. -/
inductive PyExpr where
  | name (id : String) (ctx : PyCtx)
  | const (val : String)
  | boolOp (values : List PyExpr)
  | call (func : PyExpr) (args : List PyExpr)
  | attr (value : PyExpr) (attrName : String) (ctx : PyCtx)
  | tup (elts : List PyExpr) (ctx : PyCtx)
  | yieldE (value : Option PyExpr)
end

/-- A formal parameter (`ast.arg`): name plus optional annotation expression. -/
structure PyArg where
  name : String
  ann : Option PyExpr
deriving Inhabited

mutual
/-- Fragment of the Python statement AST used by the analyzers.
`tryS` carries its `ast.ExceptHandler` list as pairs
(handler type expression, handler body); `matchS` keeps only the case
bodies (patterns/guards are not consulted by any analyzer under study). -/
inductive PyStmt where
  | functionDef (name : String) (args : List PyArg) (body : List PyStmt)
      (decorators : List PyExpr)
  | classDef (name : String) (bases : List PyExpr) (body : List PyStmt)
      (decorators : List PyExpr)
  | assign (targets : List PyExpr) (value : PyExpr)
  | annAssign (target : PyExpr) (ann : PyExpr) (value : Option PyExpr)
  | ret (value : Option PyExpr)
  | ifS (test : PyExpr) (body : List PyStmt) (orelse : List PyStmt)
  | whileS (test : PyExpr) (body : List PyStmt) (orelse : List PyStmt)
  | forS (target : PyExpr) (iter : PyExpr) (body : List PyStmt)
      (orelse : List PyStmt)
  | matchS (subject : PyExpr) (cases : List (List PyStmt))
  | tryS (body : List PyStmt) (handlers : List (Option PyExpr × List PyStmt))
      (orelse : List PyStmt) (finalbody : List PyStmt)
  | globalS (names : List String)
  | nonlocalS (names : List String)
  | exprS (value : PyExpr)
  | pass
end

/-- A node as enumerated by `ast.walk`: statements, expressions, parameters
and exception handlers.  (`ast.arguments` and `ast.arg` wrapper nodes carry
no complexity contribution, so parameters stand in for them.) -/
inductive PyNode where
  | stmt (s : PyStmt)
  | expr (e : PyExpr)
  | handler (h : Option PyExpr × List PyStmt)
  | param (a : PyArg)

mutual
/-- All nodes of an expression subtree, the root included (the node multiset
produced by `ast.walk`; `ast.walk` is breadth-first, but every consumer in
the code only counts node shapes, for which the order is irrelevant). -/
def walkExpr : PyExpr → List PyNode
  | .name i c => [.expr (.name i c)]
  | .const v => [.expr (.const v)]
  | .boolOp vs => .expr (.boolOp vs) :: walkExprList vs
  | .call f a => .expr (.call f a) :: (walkExpr f ++ walkExprList a)
  | .attr v a c => .expr (.attr v a c) :: walkExpr v
  | .tup es c => .expr (.tup es c) :: walkExprList es
  | .yieldE v => .expr (.yieldE v) :: walkExprOpt v

def walkExprList : List PyExpr → List PyNode
  | [] => []
  | e :: es => walkExpr e ++ walkExprList es

def walkExprOpt : Option PyExpr → List PyNode
  | none => []
  | some e => walkExpr e
end

/-- Nodes contributed by a parameter: the `ast.arg` node and its annotation
subtree. -/
def walkArg (a : PyArg) : List PyNode :=
  .param a :: walkExprOpt a.ann

def walkArgs : List PyArg → List PyNode
  | [] => []
  | a :: as_ => walkArg a ++ walkArgs as_

mutual
/-- All nodes of a statement subtree, the root included. -/
def walkStmt : PyStmt → List PyNode
  | .functionDef n a b d =>
      .stmt (.functionDef n a b d) ::
        (walkArgs a ++ walkStmtList b ++ walkExprList d)
  | .classDef n bs b d =>
      .stmt (.classDef n bs b d) ::
        (walkExprList bs ++ walkStmtList b ++ walkExprList d)
  | .assign t v => .stmt (.assign t v) :: (walkExprList t ++ walkExpr v)
  | .annAssign t a v =>
      .stmt (.annAssign t a v) :: (walkExpr t ++ walkExpr a ++ walkExprOpt v)
  | .ret v => .stmt (.ret v) :: walkExprOpt v
  | .ifS t b o =>
      .stmt (.ifS t b o) :: (walkExpr t ++ walkStmtList b ++ walkStmtList o)
  | .whileS t b o =>
      .stmt (.whileS t b o) :: (walkExpr t ++ walkStmtList b ++ walkStmtList o)
  | .forS t it b o =>
      .stmt (.forS t it b o) ::
        (walkExpr t ++ walkExpr it ++ walkStmtList b ++ walkStmtList o)
  | .matchS s cs => .stmt (.matchS s cs) :: (walkExpr s ++ walkCases cs)
  | .tryS b hs o f =>
      .stmt (.tryS b hs o f) ::
        (walkStmtList b ++ walkHandlers hs ++ walkStmtList o ++ walkStmtList f)
  | .globalS ns => [.stmt (.globalS ns)]
  | .nonlocalS ns => [.stmt (.nonlocalS ns)]
  | .exprS v => .stmt (.exprS v) :: walkExpr v
  | .pass => [.stmt .pass]

def walkStmtList : List PyStmt → List PyNode
  | [] => []
  | s :: ss => walkStmt s ++ walkStmtList ss

def walkCases : List (List PyStmt) → List PyNode
  | [] => []
  | c :: cs => walkStmtList c ++ walkCases cs

def walkHandlers : List (Option PyExpr × List PyStmt) → List PyNode
  | [] => []
  | h :: hs => (.handler h :: (walkExprOpt h.1 ++ walkStmtList h.2)) ++ walkHandlers hs
end

/-! ## ComplexityVisitor (analyzers/quality.py, `visit_FunctionDef`)

```
complexity = 1
for child in ast.walk(node):
    if isinstance(child, (ast.If, ast.While, ast.For, ast.Match)):
        complexity += 1
    elif isinstance(child, ast.BoolOp):
        complexity += len(child.values) - 1
    elif isinstance(child, ast.ExceptHandler):
        complexity += 1
```
-/

/-- One step of the accumulation loop of `ComplexityVisitor.visit_FunctionDef`. -/
def complexityStep (c : Nat) (child : PyNode) : Nat :=
  match child with
  | .stmt (.ifS ..) | .stmt (.whileS ..) | .stmt (.forS ..)
  | .stmt (.matchS ..) => c + 1
  | .expr (.boolOp vs) => c + (vs.length - 1)
  | .handler _ => c + 1
  | _ => c

/-- `ComplexityVisitor` score of one function definition node: base 1,
accumulated over every walked child. -/
def complexityScore (f : PyStmt) : Nat :=
  (walkStmt f).foldl complexityStep 1

/-- Spec-side count: is the node an `if`/`while`/`for`/`match` statement? -/
def isBranchNode : PyNode → Bool
  | .stmt (.ifS ..) | .stmt (.whileS ..) | .stmt (.forS ..)
  | .stmt (.matchS ..) => true
  | _ => false

/-- Spec-side count: is the node an exception handler? -/
def isHandlerNode : PyNode → Bool
  | .handler _ => true
  | _ => false

/-- Spec-side count: (N-1) for a boolean operation of N operands, else 0. -/
def boolOpExtra : PyNode → Nat
  | .expr (.boolOp vs) => vs.length - 1
  | _ => 0

/-- Pointwise: each walked node's contribution splits into the three
spec-side summands. -/
theorem complexityStep_split (c : Nat) (n : PyNode) :
    complexityStep c n =
      c + ((if isBranchNode n then 1 else 0) + boolOpExtra n +
        (if isHandlerNode n then 1 else 0)) := by
  cases n with
  | stmt s => cases s <;> simp [complexityStep, isBranchNode, boolOpExtra, isHandlerNode]
  | expr e => cases e <;> simp [complexityStep, isBranchNode, boolOpExtra, isHandlerNode]
  | handler h => simp [complexityStep, isBranchNode, boolOpExtra, isHandlerNode]
  | param a => simp [complexityStep, isBranchNode, boolOpExtra, isHandlerNode]

theorem complexity_foldl (l : List PyNode) (c : Nat) :
    l.foldl complexityStep c =
      c + (l.countP isBranchNode + (l.map boolOpExtra).sum +
        l.countP isHandlerNode) := by
  induction l generalizing c with
  | nil => simp
  | cons n ns ih =>
      rw [List.foldl_cons, ih, complexityStep_split]
      simp [List.countP_cons, List.map_cons]
      omega

/-- Scenario A of the spec: a function whose body holds one `if` with one
nested `for` (and no boolean operations or exception handlers). -/
def scenarioA : PyStmt :=
  .functionDef "process" [⟨"items", none⟩]
    [ .ifS (.name "items" .load)
        [ .forS (.name "item" .store) (.name "items" .load)
            [.exprS (.name "item" .load)] [] ]
        [],
      .ret (some (.const "None")) ] []

/-- **C2.** The `ComplexityVisitor` score of a function equals 1 plus the
number of `if`/`while`/`for`/`match` nodes it contains, plus (N-1) for each
boolean operation of N operands, plus 1 per exception handler; and the
Scenario A function (one `if`, one nested `for`) scores exactly 3. -/
theorem complexityScore_eq_formula :
    (∀ f : PyStmt,
      complexityScore f =
        1 + ((walkStmt f).countP isBranchNode +
          ((walkStmt f).map boolOpExtra).sum +
          (walkStmt f).countP isHandlerNode)) ∧
    complexityScore scenarioA = 3 := by
  constructor
  · intro f
    exact complexity_foldl (walkStmt f) 1
  · simp [scenarioA, complexityScore, walkStmt, walkStmtList, walkExpr,
      walkExprList, walkExprOpt, walkArgs, walkArg, complexityStep]

/-! ## `ast.dump` and the Python `in` operator (for recursion detection)

`DetailedFunctionVisitor.visit_FunctionDef` sets
`recursion = node.name in str(ast.dump(node))`. -/

/-- Contiguous-sublist test on character lists. -/
def listInfixOf (needle : List Char) : List Char → Bool
  | [] => needle.isEmpty
  | c :: t => needle.isPrefixOf (c :: t) || listInfixOf needle t

/-- Python's substring operator `needle in hay`. -/
def pyIn (needle hay : String) : Bool :=
  listInfixOf needle.data hay.data

theorem listInfixOf_nil_needle (hay : List Char) : listInfixOf [] hay = true := by
  cases hay <;> simp [listInfixOf, List.isEmpty]

theorem listInfixOf_append (n pre post : List Char) :
    listInfixOf n (pre ++ (n ++ post)) = true := by
  induction pre with
  | nil =>
      rw [List.nil_append]
      cases n with
      | nil => exact listInfixOf_nil_needle _
      | cons x xs =>
          rw [List.cons_append, listInfixOf]
          refine Bool.or_eq_true_iff.mpr (Or.inl ?_)
          rw [List.isPrefixOf_iff_prefix]
          exact ⟨post, by simp⟩
  | cons c cs ih =>
      rw [List.cons_append, listInfixOf, ih]
      simp

def dumpStr (s : String) : String := "'" ++ s ++ "'"

def dumpCtx : PyCtx → String
  | .load => "Load()"
  | .store => "Store()"

def dumpList (f : α → String) (l : List α) : String :=
  "[" ++ String.intercalate ", " (l.map f) ++ "]"

def dumpOpt (f : α → String) : Option α → String
  | none => "None"
  | some a => f a

mutual
/-- `ast.dump` (default arguments: field names annotated, no attributes,
hence no line numbers) restricted to the embedded fragment. -/
def dumpExpr : PyExpr → String
  | .name i c => "Name(id=" ++ dumpStr i ++ ", ctx=" ++ dumpCtx c ++ ")"
  | .const v => "Constant(value=" ++ v ++ ")"
  | .boolOp vs => "BoolOp(op=Or(), values=" ++ dumpExprList vs ++ ")"
  | .call f a =>
      "Call(func=" ++ dumpExpr f ++ ", args=" ++ dumpExprList a ++
        ", keywords=[])"
  | .attr v a c =>
      "Attribute(value=" ++ dumpExpr v ++ ", attr=" ++ dumpStr a ++
        ", ctx=" ++ dumpCtx c ++ ")"
  | .tup es c =>
      "Tuple(elts=" ++ dumpExprList es ++ ", ctx=" ++ dumpCtx c ++ ")"
  | .yieldE v => "Yield(value=" ++ dumpOptExpr v ++ ")"

def dumpExprList (l : List PyExpr) : String :=
  "[" ++ dumpExprListInner l ++ "]"

def dumpExprListInner : List PyExpr → String
  | [] => ""
  | [e] => dumpExpr e
  | e :: es => dumpExpr e ++ ", " ++ dumpExprListInner es

def dumpOptExpr : Option PyExpr → String
  | none => "None"
  | some e => dumpExpr e
end

def dumpArg (a : PyArg) : String :=
  "arg(arg=" ++ dumpStr a.name ++ ", annotation=" ++ dumpOptExpr a.ann ++ ")"

mutual
def dumpStmt : PyStmt → String
  | .functionDef n a b d =>
      "FunctionDef(name='" ++ n ++ "', args=arguments(args=" ++
        dumpList dumpArg a ++ "), body=[" ++ dumpStmts b ++
        "], decorator_list=" ++ dumpList dumpExpr d ++ ")"
  | .classDef n bs b d =>
      "ClassDef(name=" ++ dumpStr n ++ ", bases=" ++ dumpList dumpExpr bs ++
        ", body=[" ++ dumpStmts b ++ "], decorator_list=" ++
        dumpList dumpExpr d ++ ")"
  | .assign t v =>
      "Assign(targets=" ++ dumpList dumpExpr t ++ ", value=" ++ dumpExpr v ++ ")"
  | .annAssign t a v =>
      "AnnAssign(target=" ++ dumpExpr t ++ ", annotation=" ++ dumpExpr a ++
        ", value=" ++ dumpOptExpr v ++ ")"
  | .ret v => "Return(value=" ++ dumpOptExpr v ++ ")"
  | .ifS t b o =>
      "If(test=" ++ dumpExpr t ++ ", body=[" ++ dumpStmts b ++
        "], orelse=[" ++ dumpStmts o ++ "])"
  | .whileS t b o =>
      "While(test=" ++ dumpExpr t ++ ", body=[" ++ dumpStmts b ++
        "], orelse=[" ++ dumpStmts o ++ "])"
  | .forS t it b o =>
      "For(target=" ++ dumpExpr t ++ ", iter=" ++ dumpExpr it ++
        ", body=[" ++ dumpStmts b ++ "], orelse=[" ++ dumpStmts o ++ "])"
  | .matchS s cs =>
      "Match(subject=" ++ dumpExpr s ++ ", cases=[" ++ dumpCases cs ++ "])"
  | .tryS b hs o f =>
      "Try(body=[" ++ dumpStmts b ++ "], handlers=[" ++ dumpHandlerNodes hs ++
        "], orelse=[" ++ dumpStmts o ++ "], finalbody=[" ++ dumpStmts f ++ "])"
  | .globalS ns => "Global(names=" ++ dumpList dumpStr ns ++ ")"
  | .nonlocalS ns => "Nonlocal(names=" ++ dumpList dumpStr ns ++ ")"
  | .exprS v => "Expr(value=" ++ dumpExpr v ++ ")"
  | .pass => "Pass()"

def dumpStmts : List PyStmt → String
  | [] => ""
  | [s] => dumpStmt s
  | s :: ss => dumpStmt s ++ ", " ++ dumpStmts ss

def dumpCases : List (List PyStmt) → String
  | [] => ""
  | [c] => "match_case(body=[" ++ dumpStmts c ++ "])"
  | c :: cs => "match_case(body=[" ++ dumpStmts c ++ "]), " ++ dumpCases cs

def dumpHandlerNodes : List (Option PyExpr × List PyStmt) → String
  | [] => ""
  | [(t, b)] => "ExceptHandler(type=" ++ dumpOptExpr t ++ ", body=[" ++
      dumpStmts b ++ "])"
  | (t, b) :: hs => "ExceptHandler(type=" ++ dumpOptExpr t ++ ", body=[" ++
      dumpStmts b ++ "]), " ++ dumpHandlerNodes hs
end

/-- The serialized dump of a function-definition node starts with
`FunctionDef(name='<name>'...`, so the function's own name is always a
substring of it. -/
theorem pyIn_name_dumpStmt (n : String) (a : List PyArg) (b : List PyStmt)
    (d : List PyExpr) : pyIn n (dumpStmt (.functionDef n a b d)) = true := by
  rw [pyIn]
  have hdata : (dumpStmt (.functionDef n a b d)).data =
      "FunctionDef(name='".data ++ (n.data ++
        ("', args=arguments(args=" ++ dumpList dumpArg a ++ "), body=[" ++
          dumpStmts b ++ "], decorator_list=" ++ dumpList dumpExpr d ++ ")").data) := by
    simp [dumpStmt, String.data_append]
  rw [hdata]
  exact listInfixOf_append _ _ _

/-! ## DetailedFunctionVisitor (analyzers/function.py)

State-passing embedding of the `ast.NodeVisitor` subclass.  Omitted pieces,
none of which any claim reads: line numbers (`assignments`/`reads` lists,
`control_flow`, `return_paths`), `entry_points`/`exit_points`, and
`async_status` (always `False` in the source, since only `visit_FunctionDef`
is defined and it tests `isinstance(node, ast.AsyncFunctionDef)` on a
`FunctionDef`).  `visit_Return`, `visit_If`, `visit_While` and `visit_For`
therefore reduce to their unconditional `generic_visit` calls.
`current_variables` is kept as an insertion-ordered association list
name ↦ scope, mirroring the dict of `VariableFlow` records. -/

/-- The fields of `FunctionBehavior` consulted by the claims. -/
structure Behavior where
  pure : Bool
  sideEffects : List String
  raises : List String
  generators : Bool
  recursion : Bool

/-- Mutable state of `DetailedFunctionVisitor`. -/
structure DFVState where
  currentFunction : Option String
  currentVariables : List (String × String)
  sideEffects : List String
  raises : List String
  isPure : Bool
  flows : List (String × Behavior)

/-- First-match association lookup (Python dict access by key). -/
def lookupVar : List (String × String) → String → Option String
  | [], _ => none
  | (k, v) :: rest, n => if k = n then some v else lookupVar rest n

/-- `self.current_variables[name].scope = sc` (update in place, first match). -/
def setScope : List (String × String) → String → String → List (String × String)
  | [], _, _ => []
  | (k, v) :: rest, n, sc =>
      if k = n then (k, sc) :: rest else (k, v) :: setScope rest n sc

/-- `self.raises.add name` on the insertion-ordered model of the Python set. -/
def raisesInsert (rs : List String) (n : String) : List String :=
  if n ∈ rs then rs else rs ++ [n]

/-- Dict assignment `self.function_flows[name] = beh`. -/
def flowsUpdate : List (String × Behavior) → String → Behavior →
    List (String × Behavior)
  | [], n, b => [(n, b)]
  | (k, v) :: rest, n, b =>
      if k = n then (k, b) :: rest else (k, v) :: flowsUpdate rest n b

def flowsLookup : List (String × Behavior) → String → Option Behavior
  | [], _ => none
  | (k, v) :: rest, n => if k = n then some v else flowsLookup rest n

/-- The built-in names treated as side-effecting in `visit_Call`. -/
def impureOps : List String := ["print", "open", "write", "input"]

/-- `generators = any(isinstance(n, ast.Yield) for n in ast.walk(node))`. -/
def stmtHasYield (s : PyStmt) : Bool :=
  (walkStmt s).any fun n =>
    match n with
    | .expr (.yieldE _) => true
    | _ => false

/-- `visit_Global` / `visit_Nonlocal` body for one declared name. -/
def declareName (st : DFVState) (sc : String) (n : String) : DFVState :=
  let vars :=
    if (lookupVar st.currentVariables n).isSome then
      setScope st.currentVariables n sc
    else
      st.currentVariables ++ [(n, sc)]
  { st with
    currentVariables := vars
    isPure := false
    sideEffects := st.sideEffects ++ ["Uses " ++ sc ++ " variable " ++ n] }

def declareNames (st : DFVState) (sc : String) : List String → DFVState
  | [] => st
  | n :: ns => declareNames (declareName st sc n) sc ns

/-- `visit_Try`'s handler scan: collect declared exception-type names
(`ast.Name` handlers and `ast.Tuple`-of-`ast.Name` handlers). -/
def raisesFromTuple (rs : List String) : List PyExpr → List String
  | [] => rs
  | .name i _ :: es => raisesFromTuple (raisesInsert rs i) es
  | _ :: es => raisesFromTuple rs es

def raisesFromHandlers (rs : List String) :
    List (Option PyExpr × List PyStmt) → List String
  | [] => rs
  | (some (.name i _), _) :: hs => raisesFromHandlers (raisesInsert rs i) hs
  | (some (.tup es _), _) :: hs => raisesFromHandlers (raisesFromTuple rs es) hs
  | (some _, _) :: hs => raisesFromHandlers rs hs
  | (none, _) :: hs => raisesFromHandlers rs hs

mutual
/-- `DetailedFunctionVisitor.visit` on a statement. -/
def visitStmt (st : DFVState) : PyStmt → DFVState
  | .functionDef n a b d =>
      -- visit_FunctionDef: save current_function, reset the analysis state,
      -- seed parameters, generic_visit (args, body, decorator_list), record
      -- the FunctionBehavior, restore current_function.
      let st1 : DFVState :=
        { currentFunction := some n
          currentVariables := a.map fun p => (p.name, "parameter")
          sideEffects := []
          raises := []
          isPure := true
          flows := st.flows }
      let st2 := visitArgAnns st1 a
      let st3 := visitStmts st2 b
      let st4 := visitExprs st3 d
      let beh : Behavior :=
        { pure := st4.isPure
          sideEffects := st4.sideEffects
          raises := st4.raises
          generators := stmtHasYield (.functionDef n a b d)
          recursion := pyIn n (dumpStmt (.functionDef n a b d)) }
      { st4 with
        flows := flowsUpdate st4.flows n beh
        currentFunction := st.currentFunction }
  | .classDef _ bs b d =>
      -- no visit_ClassDef: generic_visit in field order bases, body,
      -- decorator_list (current_function is left as-is).
      visitExprs (visitStmts (visitExprs st bs) b) d
  | .assign t v => visitExpr (visitExprs st t) v
  | .annAssign t a v => visitExprOpt (visitExpr (visitExpr st t) a) v
  | .ret v =>
      -- visit_Return: control-flow recording (omitted), then generic_visit.
      visitExprOpt st v
  | .ifS t b o =>
      -- visit_If: control-flow recording (omitted), then generic_visit.
      visitStmts (visitStmts (visitExpr st t) b) o
  | .whileS t b o => visitStmts (visitStmts (visitExpr st t) b) o
  | .forS t it b o =>
      visitStmts (visitStmts (visitExpr (visitExpr st t) it) b) o
  | .matchS s cs => visitCases (visitExpr st s) cs
  | .tryS b hs o f =>
      -- visit_Try: record handler exception names, then generic_visit.
      let st1 :=
        if st.currentFunction.isSome then
          { st with raises := raisesFromHandlers st.raises hs }
        else st
      visitStmts (visitStmts (visitHandlers (visitStmts st1 b) hs) o) f
  | .globalS ns =>
      if st.currentFunction.isSome then declareNames st "global" ns else st
  | .nonlocalS ns =>
      if st.currentFunction.isSome then declareNames st "nonlocal" ns else st
  | .exprS v => visitExpr st v
  | .pass => st

def visitStmts (st : DFVState) : List PyStmt → DFVState
  | [] => st
  | s :: ss => visitStmts (visitStmt st s) ss

def visitCases (st : DFVState) : List (List PyStmt) → DFVState
  | [] => st
  | c :: cs => visitCases (visitStmts st c) cs

def visitHandlers (st : DFVState) : List (Option PyExpr × List PyStmt) → DFVState
  | [] => st
  | (t, b) :: hs => visitHandlers (visitStmts (visitExprOpt st t) b) hs

def visitArgAnns (st : DFVState) : List PyArg → DFVState
  | [] => st
  | a :: as_ => visitArgAnns (visitExprOpt st a.ann) as_

/-- `DetailedFunctionVisitor.visit` on an expression. -/
def visitExpr (st : DFVState) : PyExpr → DFVState
  | .name i c =>
      -- visit_Name (ast.Name has no child nodes).
      if st.currentFunction.isSome then
        match c with
        | .store =>
            if (lookupVar st.currentVariables i).isSome then st
            else { st with currentVariables := st.currentVariables ++ [(i, "local")] }
        | .load =>
            if (lookupVar st.currentVariables i).isSome then st
            else
              { st with
                currentVariables := st.currentVariables ++ [(i, "global")]
                isPure := false
                sideEffects := st.sideEffects ++ ["Uses global variable " ++ i] }
      else st
  | .const _ => st
  | .boolOp vs => visitExprs st vs
  | .call f args =>
      -- visit_Call: flag configured impure callees, then generic_visit
      -- (func first, then args).
      let st1 :=
        if st.currentFunction.isSome then
          match f with
          | .name i _ =>
              if i ∈ impureOps then
                { st with
                  isPure := false
                  sideEffects := st.sideEffects ++ ["Calls " ++ i] }
              else st
          | _ => st
        else st
      visitExprs (visitExpr st1 f) args
  | .attr v _ _ => visitExpr st v
  | .tup es _ => visitExprs st es
  | .yieldE v => visitExprOpt st v

def visitExprs (st : DFVState) : List PyExpr → DFVState
  | [] => st
  | e :: es => visitExprs (visitExpr st e) es

def visitExprOpt (st : DFVState) : Option PyExpr → DFVState
  | none => st
  | some e => visitExpr st e
end

/-- Fresh visitor applied to a parsed module (no `visit_Module`, so the
module's statements are visited in order). -/
def runDFV (m : List PyStmt) : DFVState :=
  visitStmts ⟨none, [], [], [], true, []⟩ m

/-! ## Spec-side impurity tracker

The spec's purity precondition ("zero global/nonlocal reads and zero calls
to configured impure operations") is formalised as a traversal that only
tracks the set of bound names and a flag `ok` that falls exactly when one of
the visitor's impurity triggers fires: a `Load` of a name with no existing
binding, a `global`/`nonlocal` declaration, or a call to a configured impure
operation.  It carries none of the visitor's output (no side-effect texts,
no flows); the simulation theorems below relate the two traversals. -/

structure TrackState where
  cf : Option String
  bound : List String
  ok : Bool

def trackDecls (ts : TrackState) : List String → TrackState
  | [] => ts
  | n :: ns =>
      trackDecls ⟨ts.cf, if n ∈ ts.bound then ts.bound else ts.bound ++ [n],
        false⟩ ns

mutual
def trackStmt (ts : TrackState) : PyStmt → TrackState
  | .functionDef n a b d =>
      let ts1 : TrackState := ⟨some n, a.map (·.name), true⟩
      let ts4 := trackExprs (trackStmts (trackArgAnns ts1 a) b) d
      { ts4 with cf := ts.cf }
  | .classDef _ bs b d => trackExprs (trackStmts (trackExprs ts bs) b) d
  | .assign t v => trackExpr (trackExprs ts t) v
  | .annAssign t a v => trackExprOpt (trackExpr (trackExpr ts t) a) v
  | .ret v => trackExprOpt ts v
  | .ifS t b o => trackStmts (trackStmts (trackExpr ts t) b) o
  | .whileS t b o => trackStmts (trackStmts (trackExpr ts t) b) o
  | .forS t it b o =>
      trackStmts (trackStmts (trackExpr (trackExpr ts t) it) b) o
  | .matchS s cs => trackCases (trackExpr ts s) cs
  | .tryS b hs o f =>
      trackStmts (trackStmts (trackHandlers (trackStmts ts b) hs) o) f
  | .globalS ns => if ts.cf.isSome then trackDecls ts ns else ts
  | .nonlocalS ns => if ts.cf.isSome then trackDecls ts ns else ts
  | .exprS v => trackExpr ts v
  | .pass => ts

def trackStmts (ts : TrackState) : List PyStmt → TrackState
  | [] => ts
  | s :: ss => trackStmts (trackStmt ts s) ss

def trackCases (ts : TrackState) : List (List PyStmt) → TrackState
  | [] => ts
  | c :: cs => trackCases (trackStmts ts c) cs

def trackHandlers (ts : TrackState) : List (Option PyExpr × List PyStmt) → TrackState
  | [] => ts
  | (t, b) :: hs => trackHandlers (trackStmts (trackExprOpt ts t) b) hs

def trackArgAnns (ts : TrackState) : List PyArg → TrackState
  | [] => ts
  | a :: as_ => trackArgAnns (trackExprOpt ts a.ann) as_

def trackExpr (ts : TrackState) : PyExpr → TrackState
  | .name i c =>
      if ts.cf.isSome then
        match c with
        | .store =>
            if i ∈ ts.bound then ts else { ts with bound := ts.bound ++ [i] }
        | .load =>
            if i ∈ ts.bound then ts else ⟨ts.cf, ts.bound ++ [i], false⟩
      else ts
  | .const _ => ts
  | .boolOp vs => trackExprs ts vs
  | .call f args =>
      let ts1 :=
        if ts.cf.isSome then
          match f with
          | .name i _ => if i ∈ impureOps then { ts with ok := false } else ts
          | _ => ts
        else ts
      trackExprs (trackExpr ts1 f) args
  | .attr v _ _ => trackExpr ts v
  | .tup es _ => trackExprs ts es
  | .yieldE v => trackExprOpt ts v

def trackExprs (ts : TrackState) : List PyExpr → TrackState
  | [] => ts
  | e :: es => trackExprs (trackExpr ts e) es

def trackExprOpt (ts : TrackState) : Option PyExpr → TrackState
  | none => ts
  | some e => trackExpr ts e
end

/-! ### Association-list lemmas -/

theorem lookupVar_isSome (vars : List (String × String)) (i : String) :
    (lookupVar vars i).isSome ↔ i ∈ vars.map Prod.fst := by
  induction vars with
  | nil => simp [lookupVar]
  | cons p rest ih =>
      obtain ⟨k, v⟩ := p
      by_cases hk : k = i
      · subst hk
        simp [lookupVar]
      · simp [lookupVar, hk, ih, Ne.symm hk]

theorem setScope_keys (vars : List (String × String)) (n sc : String) :
    (setScope vars n sc).map Prod.fst = vars.map Prod.fst := by
  induction vars with
  | nil => simp [setScope]
  | cons p rest ih =>
      obtain ⟨k, v⟩ := p
      by_cases hk : k = n
      · simp [setScope, hk]
      · simp [setScope, hk, ih]

theorem flowsLookup_update_self (l : List (String × Behavior)) (n : String)
    (b : Behavior) : flowsLookup (flowsUpdate l n b) n = some b := by
  induction l with
  | nil => simp [flowsUpdate, flowsLookup]
  | cons p rest ih =>
      obtain ⟨k, v⟩ := p
      by_cases hk : k = n
      · simp [flowsUpdate, flowsLookup, hk]
      · simp [flowsUpdate, flowsLookup, hk, ih]

theorem flowsUpdate_mem (l : List (String × Behavior)) (n : String)
    (b : Behavior) (e : String × Behavior) (he : e ∈ flowsUpdate l n b) :
    e ∈ l ∨ e = (n, b) := by
  induction l with
  | nil => simp [flowsUpdate] at he; right; exact he
  | cons p rest ih =>
      obtain ⟨k, v⟩ := p
      by_cases hk : k = n
      · simp [flowsUpdate, hk] at he
        rcases he with h | h
        · right; exact h
        · left; simp [h]
      · simp [flowsUpdate, hk] at he
        rcases he with h | h
        · left; simp [h]
        · rcases ih h with h' | h'
          · left; simp [h']
          · right; exact h'

/-- Correspondence between the visitor state and the tracker state: same
current function, same bound-name keys, purity flag equal to the tracker's
`ok` flag, and a clean side-effect list while `ok` still holds. -/
structure Sim (st : DFVState) (ts : TrackState) : Prop where
  hcf : st.currentFunction = ts.cf
  hkeys : st.currentVariables.map Prod.fst = ts.bound
  hpure : st.isPure = ts.ok
  hclean : ts.ok = true → st.sideEffects = []

theorem Sim_declareNames (sc : String) (ns : List String) :
    ∀ (st : DFVState) (ts : TrackState), Sim st ts →
      Sim (declareNames st sc ns) (trackDecls ts ns) := by
  induction ns with
  | nil =>
      intro st ts h
      simpa [declareNames, trackDecls] using h
  | cons n ns ih =>
      intro st ts h
      rw [declareNames, trackDecls]
      apply ih
      by_cases hb : n ∈ ts.bound
      · have hs : (lookupVar st.currentVariables n).isSome := by
          rw [lookupVar_isSome, h.hkeys]; exact hb
        refine ⟨h.hcf, ?_, rfl, by simp⟩
        simp [declareName, hs, setScope_keys, h.hkeys, hb]
      · have hs : ¬(lookupVar st.currentVariables n).isSome := by
          rw [lookupVar_isSome, h.hkeys]; exact hb
        refine ⟨h.hcf, ?_, rfl, by simp⟩
        simp [declareName, hs, h.hkeys, hb]

mutual
theorem simStmt (st : DFVState) (ts : TrackState) (h : Sim st ts) :
    ∀ s : PyStmt, Sim (visitStmt st s) (trackStmt ts s)
  | .functionDef n a b d => by
      have h1 : Sim
          ⟨some n, a.map fun p => (p.name, "parameter"), [], [], true, st.flows⟩
          ⟨some n, a.map (·.name), true⟩ :=
        ⟨rfl, by simp, rfl, fun _ => rfl⟩
      have h4 := simExprs _ _ (simStmts _ _ (simArgAnns _ _ h1 a) b) d
      rw [visitStmt, trackStmt]
      exact ⟨h.hcf, h4.hkeys, h4.hpure, h4.hclean⟩
  | .classDef n bs b d => by
      rw [visitStmt, trackStmt]
      exact simExprs _ _ (simStmts _ _ (simExprs _ _ h bs) b) d
  | .assign t v => by
      rw [visitStmt, trackStmt]
      exact simExpr _ _ (simExprs _ _ h t) v
  | .annAssign t a v => by
      rw [visitStmt, trackStmt]
      exact simExprOpt _ _ (simExpr _ _ (simExpr _ _ h t) a) v
  | .ret v => by
      rw [visitStmt, trackStmt]
      exact simExprOpt _ _ h v
  | .ifS t b o => by
      rw [visitStmt, trackStmt]
      exact simStmts _ _ (simStmts _ _ (simExpr _ _ h t) b) o
  | .whileS t b o => by
      rw [visitStmt, trackStmt]
      exact simStmts _ _ (simStmts _ _ (simExpr _ _ h t) b) o
  | .forS t it b o => by
      rw [visitStmt, trackStmt]
      exact simStmts _ _ (simStmts _ _ (simExpr _ _ (simExpr _ _ h t) it) b) o
  | .matchS s cs => by
      rw [visitStmt, trackStmt]
      exact simCases _ _ (simExpr _ _ h s) cs
  | .tryS b hs o f => by
      rw [visitStmt, trackStmt]
      have h1 : Sim
          (if st.currentFunction.isSome then
            { st with raises := raisesFromHandlers st.raises hs }
          else st) ts := by
        by_cases hc : st.currentFunction.isSome
        · simp only [hc, if_true]
          exact ⟨h.hcf, h.hkeys, h.hpure, h.hclean⟩
        · simp only [hc, if_false]
          exact h
      exact simStmts _ _ (simStmts _ _ (simHandlers _ _ (simStmts _ _ h1 b) hs) o) f
  | .globalS ns => by
      rw [visitStmt, trackStmt, h.hcf]
      by_cases hc : ts.cf.isSome
      · simp only [hc, if_true]
        exact Sim_declareNames _ _ _ _ h
      · simp only [hc, if_false]
        exact h
  | .nonlocalS ns => by
      rw [visitStmt, trackStmt, h.hcf]
      by_cases hc : ts.cf.isSome
      · simp only [hc, if_true]
        exact Sim_declareNames _ _ _ _ h
      · simp only [hc, if_false]
        exact h
  | .exprS v => by
      rw [visitStmt, trackStmt]
      exact simExpr _ _ h v
  | .pass => by
      rw [visitStmt, trackStmt]
      exact h

theorem simStmts (st : DFVState) (ts : TrackState) (h : Sim st ts) :
    ∀ l : List PyStmt, Sim (visitStmts st l) (trackStmts ts l)
  | [] => by rw [visitStmts, trackStmts]; exact h
  | s :: ss => by
      rw [visitStmts, trackStmts]
      exact simStmts _ _ (simStmt _ _ h s) ss

theorem simCases (st : DFVState) (ts : TrackState) (h : Sim st ts) :
    ∀ l : List (List PyStmt), Sim (visitCases st l) (trackCases ts l)
  | [] => by rw [visitCases, trackCases]; exact h
  | c :: cs => by
      rw [visitCases, trackCases]
      exact simCases _ _ (simStmts _ _ h c) cs

theorem simHandlers (st : DFVState) (ts : TrackState) (h : Sim st ts) :
    ∀ l : List (Option PyExpr × List PyStmt),
      Sim (visitHandlers st l) (trackHandlers ts l)
  | [] => by rw [visitHandlers, trackHandlers]; exact h
  | (t, b) :: hs => by
      rw [visitHandlers, trackHandlers]
      exact simHandlers _ _ (simStmts _ _ (simExprOpt _ _ h t) b) hs

theorem simArgAnns (st : DFVState) (ts : TrackState) (h : Sim st ts) :
    ∀ l : List PyArg, Sim (visitArgAnns st l) (trackArgAnns ts l)
  | [] => by rw [visitArgAnns, trackArgAnns]; exact h
  | a :: as_ => by
      rw [visitArgAnns, trackArgAnns]
      exact simArgAnns _ _ (simExprOpt _ _ h a.ann) as_

theorem simExpr (st : DFVState) (ts : TrackState) (h : Sim st ts) :
    ∀ e : PyExpr, Sim (visitExpr st e) (trackExpr ts e)
  | .name i c => by
      have hcV : st.currentFunction.isSome = ts.cf.isSome := by rw [h.hcf]
      cases c with
      | store =>
          by_cases hc : ts.cf.isSome = true
          · by_cases hb : i ∈ ts.bound
            · have hs : (lookupVar st.currentVariables i).isSome = true := by
                simp only [lookupVar_isSome, h.hkeys]; exact hb
              have hv : visitExpr st (.name i .store) = st := by
                rw [visitExpr]; simp [hcV, hc, hs]
              have ht : trackExpr ts (.name i .store) = ts := by
                rw [trackExpr]; simp [hc, hb]
              rw [hv, ht]; exact h
            · have hs : ¬((lookupVar st.currentVariables i).isSome = true) := by
                simp only [lookupVar_isSome, h.hkeys]; exact hb
              have hv : visitExpr st (.name i .store) =
                  { st with currentVariables := st.currentVariables ++ [(i, "local")] } := by
                rw [visitExpr]; simp [hcV, hc, hs]
              have ht : trackExpr ts (.name i .store) =
                  { ts with bound := ts.bound ++ [i] } := by
                rw [trackExpr]; simp [hc, hb]
              rw [hv, ht]
              exact ⟨h.hcf, by simp [h.hkeys], h.hpure, fun hok => h.hclean hok⟩
          · have hv : visitExpr st (.name i .store) = st := by
              rw [visitExpr]; simp [hcV, hc]
            have ht : trackExpr ts (.name i .store) = ts := by
              rw [trackExpr]; simp [hc]
            rw [hv, ht]; exact h
      | load =>
          by_cases hc : ts.cf.isSome = true
          · by_cases hb : i ∈ ts.bound
            · have hs : (lookupVar st.currentVariables i).isSome = true := by
                simp only [lookupVar_isSome, h.hkeys]; exact hb
              have hv : visitExpr st (.name i .load) = st := by
                rw [visitExpr]; simp [hcV, hc, hs]
              have ht : trackExpr ts (.name i .load) = ts := by
                rw [trackExpr]; simp [hc, hb]
              rw [hv, ht]; exact h
            · have hs : ¬((lookupVar st.currentVariables i).isSome = true) := by
                simp only [lookupVar_isSome, h.hkeys]; exact hb
              have hv : visitExpr st (.name i .load) =
                  { st with
                    currentVariables := st.currentVariables ++ [(i, "global")]
                    isPure := false
                    sideEffects := st.sideEffects ++ ["Uses global variable " ++ i] } := by
                rw [visitExpr]; simp [hcV, hc, hs]
              have ht : trackExpr ts (.name i .load) = ⟨ts.cf, ts.bound ++ [i], false⟩ := by
                rw [trackExpr]; simp [hc, hb]
              rw [hv, ht]
              exact ⟨h.hcf, by simp [h.hkeys], rfl, by simp⟩
          · have hv : visitExpr st (.name i .load) = st := by
              rw [visitExpr]; simp [hcV, hc]
            have ht : trackExpr ts (.name i .load) = ts := by
              rw [trackExpr]; simp [hc]
            rw [hv, ht]; exact h
  | .const v => by
      rw [visitExpr, trackExpr]
      exact h
  | .boolOp vs => by
      rw [visitExpr, trackExpr]
      exact simExprs _ _ h vs
  | .call f args => by
      have hcV : st.currentFunction.isSome = ts.cf.isSome := by rw [h.hcf]
      cases f
      case name i c =>
        rw [visitExpr.eq_def, trackExpr.eq_def]
        dsimp only
        by_cases hc : ts.cf.isSome = true
        · by_cases hi : i ∈ impureOps
          · simp only [hcV, hc, hi, if_true, eq_self_iff_true]
            have h1 : Sim
                { st with
                  isPure := false
                  sideEffects := st.sideEffects ++ ["Calls " ++ i] }
                { ts with ok := false } := ⟨h.hcf, h.hkeys, rfl, by simp⟩
            exact simExprs _ _ (simExpr _ _ h1 (.name i c)) args
          · simp [hcV, hc, hi]
            exact simExprs _ _ (simExpr _ _ h (.name i c)) args
        · simp [hcV, hc]
          exact simExprs _ _ (simExpr _ _ h (.name i c)) args
      all_goals
        rw [visitExpr.eq_def, trackExpr.eq_def]
        dsimp only
        simp only [ite_self]
        exact simExprs _ _ (simExpr _ _ h _) args
  | .attr v a c => by
      rw [visitExpr, trackExpr]
      exact simExpr _ _ h v
  | .tup es c => by
      rw [visitExpr, trackExpr]
      exact simExprs _ _ h es
  | .yieldE v => by
      rw [visitExpr, trackExpr]
      exact simExprOpt _ _ h v

theorem simExprs (st : DFVState) (ts : TrackState) (h : Sim st ts) :
    ∀ l : List PyExpr, Sim (visitExprs st l) (trackExprs ts l)
  | [] => by rw [visitExprs, trackExprs]; exact h
  | e :: es => by
      rw [visitExprs, trackExprs]
      exact simExprs _ _ (simExpr _ _ h e) es

theorem simExprOpt (st : DFVState) (ts : TrackState) (h : Sim st ts) :
    ∀ o : Option PyExpr, Sim (visitExprOpt st o) (trackExprOpt ts o)
  | none => by rw [visitExprOpt, trackExprOpt]; exact h
  | some e => by
      rw [visitExprOpt, trackExprOpt]
      exact simExpr _ _ h e
end

/-! ### The tracker never changes the surrounding `cf` -/

theorem trackDecls_cf (ns : List String) :
    ∀ ts : TrackState, (trackDecls ts ns).cf = ts.cf := by
  induction ns with
  | nil => intro ts; rw [trackDecls]
  | cons n ns ih => intro ts; rw [trackDecls, ih]

mutual
theorem trackStmt_cf (ts : TrackState) :
    ∀ s : PyStmt, (trackStmt ts s).cf = ts.cf
  | .functionDef n a b d => by rw [trackStmt]
  | .classDef n bs b d => by
      rw [trackStmt, trackExprs_cf _ d, trackStmts_cf _ b, trackExprs_cf _ bs]
  | .assign t v => by rw [trackStmt, trackExpr_cf _ v, trackExprs_cf _ t]
  | .annAssign t a v => by
      rw [trackStmt, trackExprOpt_cf _ v, trackExpr_cf _ a, trackExpr_cf _ t]
  | .ret v => by rw [trackStmt, trackExprOpt_cf _ v]
  | .ifS t b o => by
      rw [trackStmt, trackStmts_cf _ o, trackStmts_cf _ b, trackExpr_cf _ t]
  | .whileS t b o => by
      rw [trackStmt, trackStmts_cf _ o, trackStmts_cf _ b, trackExpr_cf _ t]
  | .forS t it b o => by
      rw [trackStmt, trackStmts_cf _ o, trackStmts_cf _ b, trackExpr_cf _ it,
        trackExpr_cf _ t]
  | .matchS s cs => by rw [trackStmt, trackCases_cf _ cs, trackExpr_cf _ s]
  | .tryS b hs o f => by
      rw [trackStmt, trackStmts_cf _ f, trackStmts_cf _ o,
        trackHandlers_cf _ hs, trackStmts_cf _ b]
  | .globalS ns => by
      rw [trackStmt]
      split
      · rw [trackDecls_cf]
      · rfl
  | .nonlocalS ns => by
      rw [trackStmt]
      split
      · rw [trackDecls_cf]
      · rfl
  | .exprS v => by rw [trackStmt, trackExpr_cf _ v]
  | .pass => by rw [trackStmt]

theorem trackStmts_cf (ts : TrackState) :
    ∀ l : List PyStmt, (trackStmts ts l).cf = ts.cf
  | [] => by rw [trackStmts]
  | s :: ss => by rw [trackStmts, trackStmts_cf _ ss, trackStmt_cf _ s]

theorem trackCases_cf (ts : TrackState) :
    ∀ l : List (List PyStmt), (trackCases ts l).cf = ts.cf
  | [] => by rw [trackCases]
  | c :: cs => by rw [trackCases, trackCases_cf _ cs, trackStmts_cf _ c]

theorem trackHandlers_cf (ts : TrackState) :
    ∀ l : List (Option PyExpr × List PyStmt), (trackHandlers ts l).cf = ts.cf
  | [] => by rw [trackHandlers]
  | (t, b) :: hs => by
      rw [trackHandlers, trackHandlers_cf _ hs, trackStmts_cf _ b,
        trackExprOpt_cf _ t]

theorem trackArgAnns_cf (ts : TrackState) :
    ∀ l : List PyArg, (trackArgAnns ts l).cf = ts.cf
  | [] => by rw [trackArgAnns]
  | a :: as_ => by rw [trackArgAnns, trackArgAnns_cf _ as_, trackExprOpt_cf _ a.ann]

theorem trackExpr_cf (ts : TrackState) :
    ∀ e : PyExpr, (trackExpr ts e).cf = ts.cf
  | .name i c => by
      cases c <;> rw [trackExpr] <;> split <;> (try split) <;> rfl
  | .const v => by rw [trackExpr]
  | .boolOp vs => by rw [trackExpr, trackExprs_cf _ vs]
  | .call f args => by
      rw [trackExpr.eq_def]
      dsimp only
      rw [trackExprs_cf _ args, trackExpr_cf _ f]
      split
      · split <;> (try split) <;> rfl
      · rfl
  | .attr v a c => by rw [trackExpr, trackExpr_cf _ v]
  | .tup es c => by rw [trackExpr, trackExprs_cf _ es]
  | .yieldE v => by rw [trackExpr, trackExprOpt_cf _ v]

theorem trackExprs_cf (ts : TrackState) :
    ∀ l : List PyExpr, (trackExprs ts l).cf = ts.cf
  | [] => by rw [trackExprs]
  | e :: es => by rw [trackExprs, trackExprs_cf _ es, trackExpr_cf _ e]

theorem trackExprOpt_cf (ts : TrackState) :
    ∀ o : Option PyExpr, (trackExprOpt ts o).cf = ts.cf
  | none => by rw [trackExprOpt]
  | some e => by rw [trackExprOpt, trackExpr_cf _ e]
end

/-! ### Expressions never touch `function_flows` -/

mutual
theorem visitExpr_flows (st : DFVState) :
    ∀ e : PyExpr, (visitExpr st e).flows = st.flows
  | .name i c => by
      cases c <;> rw [visitExpr] <;> split <;> (try split) <;> rfl
  | .const v => by rw [visitExpr]
  | .boolOp vs => by rw [visitExpr, visitExprs_flows _ vs]
  | .call f args => by
      rw [visitExpr.eq_def]
      dsimp only
      rw [visitExprs_flows _ args, visitExpr_flows _ f]
      split
      · split <;> (try split) <;> rfl
      · rfl
  | .attr v a c => by rw [visitExpr, visitExpr_flows _ v]
  | .tup es c => by rw [visitExpr, visitExprs_flows _ es]
  | .yieldE v => by rw [visitExpr, visitExprOpt_flows _ v]

theorem visitExprs_flows (st : DFVState) :
    ∀ l : List PyExpr, (visitExprs st l).flows = st.flows
  | [] => by rw [visitExprs]
  | e :: es => by rw [visitExprs, visitExprs_flows _ es, visitExpr_flows _ e]

theorem visitExprOpt_flows (st : DFVState) :
    ∀ o : Option PyExpr, (visitExprOpt st o).flows = st.flows
  | none => by rw [visitExprOpt]
  | some e => by rw [visitExprOpt, visitExpr_flows _ e]
end

theorem visitArgAnns_flows (l : List PyArg) :
    ∀ st : DFVState, (visitArgAnns st l).flows = st.flows := by
  induction l with
  | nil => intro st; rw [visitArgAnns]
  | cons a as_ ih => intro st; rw [visitArgAnns, ih, visitExprOpt_flows]

theorem declareNames_flows (sc : String) (ns : List String) :
    ∀ st : DFVState, (declareNames st sc ns).flows = st.flows := by
  induction ns with
  | nil => intro st; rw [declareNames]
  | cons n ns ih => intro st; rw [declareNames, ih, declareName]

/-! ### Every recorded `FunctionBehavior` has `recursion = true` -/

def RecInv (st : DFVState) : Prop :=
  ∀ p ∈ st.flows, p.2.recursion = true

theorem RecInv.of_eq {st st' : DFVState} (h : RecInv st)
    (he : st'.flows = st.flows) : RecInv st' := by
  intro p hp
  exact h p (he ▸ hp)

mutual
theorem recStmt (st : DFVState) (h : RecInv st) :
    ∀ s : PyStmt, RecInv (visitStmt st s)
  | .functionDef n a b d => by
      rw [visitStmt]
      intro p hp
      rcases flowsUpdate_mem _ _ _ _ hp with h' | h'
      · have h1 : RecInv
            ⟨some n, a.map fun q => (q.name, "parameter"), [], [], true, st.flows⟩ :=
          fun q hq => h q hq
        have h2 : RecInv (visitArgAnns
            ⟨some n, a.map fun q => (q.name, "parameter"), [], [], true, st.flows⟩ a) :=
          h1.of_eq (visitArgAnns_flows a _)
        have h3 := recStmts _ h2 b
        have h4 : RecInv (visitExprs (visitStmts (visitArgAnns
            ⟨some n, a.map fun q => (q.name, "parameter"), [], [], true, st.flows⟩ a) b) d) :=
          h3.of_eq (visitExprs_flows _ d)
        exact h4 p h'
      · rw [h']
        exact pyIn_name_dumpStmt n a b d
  | .classDef n bs b d => by
      rw [visitStmt]
      have h1 : RecInv (visitExprs st bs) := h.of_eq (visitExprs_flows _ bs)
      have h2 := recStmts _ h1 b
      exact h2.of_eq (visitExprs_flows _ d)
  | .assign t v => by
      rw [visitStmt]
      have h1 : RecInv (visitExprs st t) := h.of_eq (visitExprs_flows _ t)
      exact h1.of_eq (visitExpr_flows _ v)
  | .annAssign t a v => by
      rw [visitStmt]
      have h1 : RecInv (visitExpr (visitExpr st t) a) :=
        (h.of_eq (visitExpr_flows _ t)).of_eq (visitExpr_flows _ a)
      exact h1.of_eq (visitExprOpt_flows _ v)
  | .ret v => by
      rw [visitStmt]
      exact h.of_eq (visitExprOpt_flows _ v)
  | .ifS t b o => by
      rw [visitStmt]
      have h1 : RecInv (visitExpr st t) := h.of_eq (visitExpr_flows _ t)
      exact recStmts _ (recStmts _ h1 b) o
  | .whileS t b o => by
      rw [visitStmt]
      have h1 : RecInv (visitExpr st t) := h.of_eq (visitExpr_flows _ t)
      exact recStmts _ (recStmts _ h1 b) o
  | .forS t it b o => by
      rw [visitStmt]
      have h1 : RecInv (visitExpr (visitExpr st t) it) :=
        (h.of_eq (visitExpr_flows _ t)).of_eq (visitExpr_flows _ it)
      exact recStmts _ (recStmts _ h1 b) o
  | .matchS s cs => by
      rw [visitStmt]
      have h1 : RecInv (visitExpr st s) := h.of_eq (visitExpr_flows _ s)
      exact recCases _ h1 cs
  | .tryS b hs o f => by
      rw [visitStmt]
      have h1 : RecInv
          (if st.currentFunction.isSome then
            { st with raises := raisesFromHandlers st.raises hs }
          else st) := by
        split
        · exact fun q hq => h q hq
        · exact h
      exact recStmts _ (recStmts _ (recHandlers _ (recStmts _ h1 b) hs) o) f
  | .globalS ns => by
      rw [visitStmt]
      split
      · exact h.of_eq (declareNames_flows _ ns _)
      · exact h
  | .nonlocalS ns => by
      rw [visitStmt]
      split
      · exact h.of_eq (declareNames_flows _ ns _)
      · exact h
  | .exprS v => by
      rw [visitStmt]
      exact h.of_eq (visitExpr_flows _ v)
  | .pass => by
      rw [visitStmt]
      exact h

theorem recStmts (st : DFVState) (h : RecInv st) :
    ∀ l : List PyStmt, RecInv (visitStmts st l)
  | [] => by rw [visitStmts]; exact h
  | s :: ss => by
      rw [visitStmts]
      exact recStmts _ (recStmt _ h s) ss

theorem recCases (st : DFVState) (h : RecInv st) :
    ∀ l : List (List PyStmt), RecInv (visitCases st l)
  | [] => by rw [visitCases]; exact h
  | c :: cs => by
      rw [visitCases]
      exact recCases _ (recStmts _ h c) cs

theorem recHandlers (st : DFVState) (h : RecInv st) :
    ∀ l : List (Option PyExpr × List PyStmt), RecInv (visitHandlers st l)
  | [] => by rw [visitHandlers]; exact h
  | (t, b) :: hs => by
      rw [visitHandlers]
      exact recHandlers _ (recStmts _ (h.of_eq (visitExprOpt_flows _ t)) b) hs
end

/-- Appending statements to a body continues the traversal from the state
reached after the original body. -/
theorem visitStmts_append (l1 l2 : List PyStmt) :
    ∀ st : DFVState, visitStmts st (l1 ++ l2) = visitStmts (visitStmts st l1) l2 := by
  induction l1 with
  | nil => intro st; rw [visitStmts, List.nil_append]
  | cons s ss ih => intro st; rw [List.cons_append, visitStmts, visitStmts, ih]

/-- **C10.** For every Python function analyzed by the behavior analyzer,
the recursion flag of its recorded `FunctionBehavior` is `true`: the
membership test `node.name in str(ast.dump(node))` is performed on the
serialized dump of the whole function-definition node, which always
contains `name='<the function's own name>'`. -/
theorem recursion_flag_always_true (m : List PyStmt) (p : String × Behavior)
    (hp : p ∈ (runDFV m).flows) : p.2.recursion = true := by
  have h0 : RecInv ⟨none, [], [], [], true, []⟩ :=
    fun q hq => absurd hq (List.not_mem_nil q)
  exact recStmts _ h0 m p hp

/-- A concrete instantiation of the recursion-flag theorem: the module
`def f(): pass` records behavior for `f`, and its recursion flag is true
even though `f` is plainly not recursive. -/
theorem recursion_flag_witness :
    (("f", ⟨true, [], [],
        stmtHasYield (.functionDef "f" [] [.pass] []),
        pyIn "f" (dumpStmt (.functionDef "f" [] [.pass] []))⟩) :
      String × Behavior).2.recursion = true :=
  recursion_flag_always_true [.functionDef "f" [] [.pass] []] _ (by
    simp only [runDFV, visitStmts, visitStmt, visitArgAnns, visitExprs,
      flowsUpdate]
    simp)

/-! ## C3: purity and side effects -/

/-- **C3 (amended).**  Part 1 (as claimed): a function whose traversal
triggers no impurity event — no `Load` of an unbound (global/nonlocal)
name, no `global`/`nonlocal` declaration, no call to a configured impure
operation, formalised as the spec-side tracker finishing with `ok` — is
recorded with `pure = true` and an empty side-effect list.
Part 2 (amended): appending exactly one call `print()` to such a function's
body flips `pure` to `false` but appends **two** side-effect entries, not
one: the configured-call record `"Calls print"` and, because the callee
identifier itself is read as an unbound name by `visit_Name`,
`"Uses global variable print"`. -/
theorem purity_report :
    (∀ (n : String) (a : List PyArg) (b : List PyStmt) (d : List PyExpr),
        (trackStmt ⟨none, [], true⟩ (.functionDef n a b d)).ok = true →
        (flowsLookup (visitStmt ⟨none, [], [], [], true, []⟩
            (.functionDef n a b d)).flows n).map
          (fun beh => (beh.pure, beh.sideEffects)) = some (true, [])) ∧
    (∀ (n : String) (a : List PyArg) (b : List PyStmt),
        (trackStmt ⟨none, [], true⟩ (.functionDef n a b [])).ok = true →
        "print" ∉ (trackStmt ⟨none, [], true⟩ (.functionDef n a b [])).bound →
        (flowsLookup (visitStmt ⟨none, [], [], [], true, []⟩
            (.functionDef n a
              (b ++ [.exprS (.call (.name "print" .load) [])]) [])).flows n).map
          (fun beh => (beh.pure, beh.sideEffects)) =
          some (false, ["Calls print", "Uses global variable print"])) := by
  constructor
  · intro n a b d hok
    simp only [trackStmt] at hok
    have hbase : Sim
        ⟨some n, a.map fun p => (p.name, "parameter"), [], [], true, []⟩
        ⟨some n, a.map (·.name), true⟩ := ⟨rfl, by simp, rfl, fun _ => rfl⟩
    have hsim := simExprs _ _ (simStmts _ _ (simArgAnns _ _ hbase a) b) d
    simp only [visitStmt]
    rw [flowsLookup_update_self]
    have hp : (visitExprs (visitStmts (visitArgAnns
        ⟨some n, a.map fun p => (p.name, "parameter"), [], [], true, []⟩ a) b) d).isPure
        = true := hsim.hpure.trans hok
    have hs := hsim.hclean hok
    simp [hp, hs]
  · intro n a b hok hnb
    simp only [trackStmt, trackExprs] at hok hnb
    have hbase : Sim
        ⟨some n, a.map fun p => (p.name, "parameter"), [], [], true, []⟩
        ⟨some n, a.map (·.name), true⟩ := ⟨rfl, by simp, rfl, fun _ => rfl⟩
    have hsim := simStmts _ _ (simArgAnns _ _ hbase a) b
    have hcf3 : (visitStmts (visitArgAnns
        ⟨some n, a.map fun p => (p.name, "parameter"), [], [], true, []⟩ a) b).currentFunction
        = some n := by
      rw [hsim.hcf, trackStmts_cf, trackArgAnns_cf]
    have hp3 := hsim.hpure.trans hok
    have hs3 := hsim.hclean hok
    have hlk : (lookupVar (visitStmts (visitArgAnns
        ⟨some n, a.map fun p => (p.name, "parameter"), [], [], true, []⟩ a) b).currentVariables
        "print").isSome = false := by
      rw [Bool.eq_false_iff]
      intro hcontra
      rw [lookupVar_isSome, hsim.hkeys] at hcontra
      exact hnb hcontra
    simp only [visitStmt]
    rw [visitStmts_append]
    simp only [visitStmts, visitStmt, visitExpr, visitExprs, hcf3,
      Option.isSome_some, if_true, impureOps]
    rw [flowsLookup_update_self]
    simp [hlk, hp3, hs3]

/-- Counterexample to C3 as stated: in `def f(x): print(x)` the single
`print` call produces **two** side-effect entries (the claim asserts
exactly one). -/
theorem purity_counterexample :
    (flowsLookup (visitStmt ⟨none, [], [], [], true, []⟩
        (.functionDef "f" [⟨"x", none⟩]
          [.exprS (.call (.name "print" .load) [.name "x" .load])] [])).flows
      "f").map (fun beh => (beh.pure, beh.sideEffects.length, beh.sideEffects)) =
    some (false, 2, ["Calls print", "Uses global variable print"]) := by
  simp only [visitStmt, visitArgAnns, visitExprOpt, visitStmts, visitExprs,
    visitExpr, flowsUpdate, lookupVar, impureOps]
  simp [flowsLookup, lookupVar]

/-- Closed instantiation of both parts of the purity theorem at
`def id(x): return x` (and its body extended with `print()`). -/
theorem purity_report_witness :
    ((flowsLookup (visitStmt ⟨none, [], [], [], true, []⟩
        (.functionDef "id" [⟨"x", none⟩] [.ret (some (.name "x" .load))] [])).flows
      "id").map (fun beh => (beh.pure, beh.sideEffects)) = some (true, [])) ∧
    ((flowsLookup (visitStmt ⟨none, [], [], [], true, []⟩
        (.functionDef "id" [⟨"x", none⟩]
          ([.ret (some (.name "x" .load))] ++
            [.exprS (.call (.name "print" .load) [])]) [])).flows
      "id").map (fun beh => (beh.pure, beh.sideEffects)) =
      some (false, ["Calls print", "Uses global variable print"])) := by
  constructor
  · exact purity_report.1 "id" [⟨"x", none⟩] [.ret (some (.name "x" .load))] []
      (by simp [trackStmt, trackArgAnns, trackExprOpt, trackStmts, trackExpr,
        trackExprs])
  · exact purity_report.2 "id" [⟨"x", none⟩] [.ret (some (.name "x" .load))]
      (by simp [trackStmt, trackArgAnns, trackExprOpt, trackStmts, trackExpr,
        trackExprs])
      (by simp [trackStmt, trackArgAnns, trackExprOpt, trackStmts, trackExpr,
        trackExprs])

/-! ## DesignPatternDetector (analyzers/patterns.py)

Each pattern visitor walks the whole tree (`generic_visit` recurses, so
nested classes are also visited) and accumulates per-class boolean signals
into instance fields that are never reset; the per-file outcome of each
visitor is therefore an OR over all class-definition nodes of the tree.
(`DecoratorPatternVisitor.is_decorator` is reassigned at the end of every
`visit_ClassDef` from the two accumulated signals, so after the last class
it equals their OR over all classes, and it stays `False` when the tree has
no class at all — the same OR semantics.) -/

/-- ASCII model of Python's `str.lower()` (all identifiers involved are
ASCII; `String.toLower` itself is avoided only because its byte-position
recursion does not reduce in the kernel). -/
def lowerChar (c : Char) : Char :=
  if 'A' ≤ c && c ≤ 'Z' then Char.ofNat (c.toNat + 32) else c

def pyLower (s : String) : String := ⟨s.data.map lowerChar⟩

/-- All class-definition nodes of a module: (name, bases, body). -/
def moduleClassNodes (m : List PyStmt) :
    List (String × List PyExpr × List PyStmt) :=
  (walkStmtList m).filterMap fun nd =>
    match nd with
    | .stmt (.classDef n bs b _) => some (n, bs, b)
    | _ => none

/-- `SingletonPatternVisitor`: an `ast.AnnAssign` class-body item whose
target is the name `_instance`.  (A plain, unannotated `_instance = ...`
assignment is an `ast.Assign` and is not recognised.) -/
def classHasInstanceAttr (body : List PyStmt) : Bool :=
  body.any fun item =>
    match item with
    | .annAssign (.name id _) _ _ => id == "_instance"
    | _ => false

/-- `SingletonPatternVisitor`: an `__init__` method carrying a decorator
that is the bare name `private`. -/
def classHasPrivateInit (body : List PyStmt) : Bool :=
  body.any fun item =>
    match item with
    | .functionDef nm _ _ decs =>
        nm == "__init__" &&
          decs.any fun dec =>
            match dec with
            | .name di _ => di == "private"
            | _ => false
    | _ => false

/-- `FactoryPatternVisitor`: a method whose lowercased name contains
`create` or `factory`. -/
def classHasFactoryMethod (body : List PyStmt) : Bool :=
  body.any fun item =>
    match item with
    | .functionDef nm _ _ _ =>
        pyIn "create" (pyLower nm) || pyIn "factory" (pyLower nm)
    | _ => false

/-- `ObserverPatternVisitor`: an annotated class attribute whose lowercased
name contains `observer`. -/
def classHasObserverAttr (body : List PyStmt) : Bool :=
  body.any fun item =>
    match item with
    | .annAssign (.name id _) _ _ => pyIn "observer" (pyLower id)
    | _ => false

/-- `ObserverPatternVisitor`: a method whose lowercased name contains
`notify`. -/
def classHasNotifyMethod (body : List PyStmt) : Bool :=
  body.any fun item =>
    match item with
    | .functionDef nm _ _ _ => pyIn "notify" (pyLower nm)
    | _ => false

/-- `StrategyPatternVisitor.is_strategy`: a method whose lowercased name
contains `strategy` or `algorithm`. -/
def classHasStrategyMethod (body : List PyStmt) : Bool :=
  body.any fun item =>
    match item with
    | .functionDef nm _ _ _ =>
        pyIn "strategy" (pyLower nm) || pyIn "algorithm" (pyLower nm)
    | _ => false

/-- `DecoratorPatternVisitor.has_wrapper`: class name contains
`decorator` or `wrapper` (lowercased). -/
def classNameWrapper (n : String) : Bool :=
  pyIn "decorator" (pyLower n) || pyIn "wrapper" (pyLower n)

/-- `DecoratorPatternVisitor.has_component`: a base that is a bare name
containing `component` or `interface` (lowercased). -/
def classBasesComponent (bs : List PyExpr) : Bool :=
  bs.any fun bexp =>
    match bexp with
    | .name bi _ => pyIn "component" (pyLower bi) || pyIn "interface" (pyLower bi)
    | _ => false

/-- `DesignPatternDetector.analyze_python_patterns` on one parsed file:
the rule table of appends.  Note the Singleton rule is
`has_instance or has_private_constructor` — an OR, not the AND the
visitor's own (unused) `is_singleton` field computes; likewise Factory
uses `has_factory_method` alone ("more lenient"). -/
def analyzePythonPatterns (m : List PyStmt) : List String :=
  (if (moduleClassNodes m).any (fun c => classHasInstanceAttr c.2.2) ||
      (moduleClassNodes m).any (fun c => classHasPrivateInit c.2.2) then
    ["Singleton"] else []) ++
  (if (moduleClassNodes m).any (fun c => classHasFactoryMethod c.2.2) then
    ["Factory"] else []) ++
  (if (moduleClassNodes m).any (fun c => classHasObserverAttr c.2.2) ||
      (moduleClassNodes m).any (fun c => classHasNotifyMethod c.2.2) then
    ["Observer"] else []) ++
  (if (moduleClassNodes m).any (fun c => classHasStrategyMethod c.2.2) then
    ["Strategy"] else []) ++
  (if (moduleClassNodes m).any (fun c => classNameWrapper c.1) ||
      (moduleClassNodes m).any (fun c => classBasesComponent c.2.1) then
    ["Decorator"] else [])

/-- Scenario C's module: a class with an `_instance`-named annotated class
attribute and no other signal. -/
def scenarioCModule : List PyStmt :=
  [.classDef "Config" []
    [.annAssign (.name "_instance" .store) (.name "ClassVar" .load) none] []]

/-- **C4 counterexample.** The Scenario C class carries the `_instance`
signal only — no `private`-decorated `__init__` — yet the detector does
tag the file Singleton, because the rule is an OR of the two signals. -/
theorem singleton_counterexample :
    classHasPrivateInit
        [.annAssign (.name "_instance" .store) (.name "ClassVar" .load) none]
      = false ∧
    analyzePythonPatterns scenarioCModule = ["Singleton"] := by
  constructor
  · decide
  · simp only [analyzePythonPatterns, scenarioCModule, moduleClassNodes,
      walkStmtList, walkStmt, walkExprList, walkExpr, walkExprOpt]
    simp only [List.filterMap, List.any_cons, List.any_nil,
      classHasInstanceAttr, classHasPrivateInit, classHasFactoryMethod,
      classHasObserverAttr, classHasNotifyMethod, classHasStrategyMethod,
      classNameWrapper, classBasesComponent]
    decide

/-- **C4 (amended).** The Singleton tag requires *either* signal, not both:
a file is tagged Singleton iff some class has an `_instance`-named
annotated class attribute or some class has a `private`-decorated
`__init__`. -/
theorem mem_singleton_pattern_list (p1 p2 p3 p4 p5 : Prop) [Decidable p1]
    [Decidable p2] [Decidable p3] [Decidable p4] [Decidable p5] :
    "Singleton" ∈
      ((if p1 then ["Singleton"] else []) ++ (if p2 then ["Factory"] else []) ++
        (if p3 then ["Observer"] else []) ++ (if p4 then ["Strategy"] else []) ++
        (if p5 then ["Decorator"] else [])) ↔ p1 := by
  by_cases h1 : p1 <;> by_cases h2 : p2 <;> by_cases h3 : p3 <;>
    by_cases h4 : p4 <;> by_cases h5 : p5 <;> simp [h1, h2, h3, h4, h5]

theorem singleton_tag_iff (m : List PyStmt) :
    "Singleton" ∈ analyzePythonPatterns m ↔
      ((moduleClassNodes m).any (fun c => classHasInstanceAttr c.2.2) ||
        (moduleClassNodes m).any (fun c => classHasPrivateInit c.2.2)) = true := by
  rw [analyzePythonPatterns]
  exact mem_singleton_pattern_list _ _ _ _ _

/-! ## Dependency graph construction (analyzers/code.py, `_build_dependency_graph`)

`models.Import` is embedded with the fields the builder reads.  The Python
analyzer passes `level=node.level` to the `Import` constructor, but the
pydantic model declares no such field and silently discards the keyword, so
no embedded field exists for it either.  `File` is embedded with the fields
the builder touches.  String and path operations are modelled on character
lists so that concrete runs reduce in the kernel:
`pySplit` is `str.split` with a one-character separator, `pyStartsWith` is
`str.startswith`, `pyReplaceDotSlash` is `str.replace('.', '/')`, and
directories are segment lists with `[]` playing `Path('.')`
(`Path.parent` drops the last segment and is the identity on `.`,
`joinpath` appends segments, dropping empty ones, and rendering joins with
`/`). -/

structure PyImport where
  module : String
  names : List String
  aliasName : Option String
  is_from_import : Bool
deriving DecidableEq

structure AFile where
  language : String
  imports : List PyImport
  dependencies : List String
  dependents : List String
deriving DecidableEq

def splitCharList (c : Char) : List Char → List (List Char)
  | [] => [[]]
  | x :: xs =>
      match splitCharList c xs with
      | [] => [[]]
      | h :: t => if x = c then [] :: h :: t else (x :: h) :: t

def pySplit (c : Char) (s : String) : List String :=
  (splitCharList c s.data).map fun l => ⟨l⟩

def pyStartsWith (s pre : String) : Bool :=
  pre.data.isPrefixOf s.data

def pyReplaceDotSlash (s : String) : String :=
  ⟨s.data.map fun c => if c = '.' then '/' else c⟩

/-- `str(Path(p).parent)` as segments: `Path('pkg/a.py').parent = 'pkg'`,
`Path('a.py').parent = '.'` (empty list). -/
def dirOfPath (p : String) : List String :=
  (pySplit '/' p).dropLast

def renderPath (segs : List String) : String :=
  if segs.isEmpty then "." else String.intercalate "/" segs

/-- `for _ in range(dots): target_dir = target_dir.parent`. -/
def parentIter (d : List String) : Nat → List String
  | 0 => d
  | k + 1 => (parentIter d k).dropLast

/-- The `module_path` computation of `_build_dependency_graph`
(lines 174-190): the relative branch fires only when the stored module
string itself starts with a dot — which `ast.ImportFrom` never produces,
since CPython strips leading dots into `level`. -/
def modulePathOf (filePath : String) (imp : PyImport) : String :=
  if imp.is_from_import then
    if pyStartsWith imp.module "." then
      let stripped : List Char := imp.module.data.dropWhile (· = '.')
      let dots : Nat := imp.module.data.length - stripped.length
      let moduleParts : List String := pySplit '.' ⟨stripped⟩
      let targetDir : List String := parentIter (dirOfPath filePath) dots
      renderPath (targetDir ++ moduleParts.filter (· ≠ ""))
    else pyReplaceDotSlash imp.module
  else pyReplaceDotSlash imp.module

/-- `potential_paths` (lines 192-210): Python files get a module-file and a
package candidate; JS/TS files get extension and `index` candidates; other
languages get none. -/
def importCandidates (lang : String) (modulePath : String) : List String :=
  if lang == "python" then
    [modulePath ++ ".py", modulePath ++ "/__init__.py"]
  else if lang == "javascript" || lang == "typescript" then
    [modulePath ++ ".js", modulePath ++ ".ts", modulePath ++ ".jsx",
      modulePath ++ ".tsx", modulePath ++ "/index.js", modulePath ++ "/index.ts"]
  else []

/-- Candidates of the JS/TS raw-dependency loop (lines 224-232). -/
def jsDepCandidates (dep : String) : List String :=
  [dep ++ ".js", dep ++ ".ts", dep ++ ".jsx", dep ++ ".tsx",
    dep ++ "/index.js", dep ++ "/index.ts"]

def lookupFile : List (String × AFile) → String → Option AFile
  | [], _ => none
  | (k, v) :: rest, key => if k = key then some v else lookupFile rest key

def containsKey (fm : List (String × AFile)) (key : String) : Bool :=
  (lookupFile fm key).isSome

/-- Mutate the `File` object stored under a key (dict values are updated in
place; the key set never changes). -/
def updateFile : List (String × AFile) → String → (AFile → AFile) →
    List (String × AFile)
  | [], _, _ => []
  | (k, v) :: rest, key, f =>
      if k = key then (k, f v) :: rest else (k, v) :: updateFile rest key f

/-- `if path not in file_analysis.dependencies: file_analysis.dependencies.append(path)`. -/
def depAppend (target : String) (F : AFile) : AFile :=
  if target ∈ F.dependencies then F
  else { F with dependencies := F.dependencies ++ [target] }

/-- `if file_path not in files[path].dependents: files[path].dependents.append(file_path)`. -/
def depdAppend (fp : String) (F : AFile) : AFile :=
  if fp ∈ F.dependents then F
  else { F with dependents := F.dependents ++ [fp] }

/-- Record one resolved edge (lines 214-218 and 236-240): add the graph
edge, append the target to the importer's `dependencies` unless present,
and append the importer to the target's `dependents` unless present. -/
def addEdgeRecord (fm : List (String × AFile)) (edges : List (String × String))
    (fp target : String) : List (String × AFile) × List (String × String) :=
  (updateFile (updateFile fm fp (depAppend target)) target (depdAppend fp),
    edges ++ [(fp, target)])

/-- Resolve one `Import` record: first candidate present as a key wins. -/
def processImport (st : List (String × AFile) × List (String × String))
    (fp lang : String) (imp : PyImport) :
    List (String × AFile) × List (String × String) :=
  match (importCandidates lang (modulePathOf fp imp)).find?
      (fun c => containsKey st.1 c) with
  | some target => addEdgeRecord st.1 st.2 fp target
  | none => st

def importsLoop (st : List (String × AFile) × List (String × String))
    (fp lang : String) : List PyImport →
    List (String × AFile) × List (String × String)
  | [] => st
  | imp :: rest => importsLoop (processImport st fp lang imp) fp lang rest

def keysOf (fm : List (String × AFile)) : List String := fm.map Prod.fst

/-- The live `file_analysis.dependencies` list of a file. -/
def depsOf (fm : List (String × AFile)) (fp : String) : List String :=
  ((lookupFile fm fp).map fun F => F.dependencies).getD []

theorem lookupFile_updateFile (fm : List (String × AFile)) (key : String)
    (f : AFile → AFile) (k : String) :
    lookupFile (updateFile fm key f) k =
      if k = key then (lookupFile fm key).map f else lookupFile fm k := by
  induction fm with
  | nil => simp [updateFile, lookupFile]
  | cons p rest ih =>
      obtain ⟨k0, v0⟩ := p
      by_cases h0 : k0 = key
      · subst h0
        by_cases hk : k0 = k
        · subst hk
          simp [updateFile, lookupFile]
        · simp [updateFile, lookupFile, hk, Ne.symm hk]
      · by_cases hk : k0 = k
        · subst hk
          simp [updateFile, lookupFile, h0, Ne.symm h0]
        · simp [updateFile, lookupFile, h0, hk, ih]

theorem keysOf_updateFile (fm : List (String × AFile)) (key : String)
    (f : AFile → AFile) : keysOf (updateFile fm key f) = keysOf fm := by
  induction fm with
  | nil => simp [updateFile]
  | cons p rest ih =>
      obtain ⟨k0, v0⟩ := p
      by_cases h0 : k0 = key
      · simp [updateFile, keysOf, h0]
      · simp only [updateFile, if_neg h0]
        simpa [keysOf] using ih

theorem keysOf_addEdgeRecord (fm : List (String × AFile))
    (edges : List (String × String)) (fp target : String) :
    keysOf (addEdgeRecord fm edges fp target).1 = keysOf fm := by
  rw [addEdgeRecord]
  simp [keysOf_updateFile]

theorem depsOf_addEdgeRecord (fm : List (String × AFile))
    (edges : List (String × String)) (fp target : String) (F : AFile)
    (hl : lookupFile fm fp = some F) :
    depsOf (addEdgeRecord fm edges fp target).1 fp =
      if target ∈ F.dependencies then F.dependencies
      else F.dependencies ++ [target] := by
  by_cases he : fp = target
  · subst he
    by_cases hd : fp ∈ F.dependencies
    · by_cases hd2 : fp ∈ F.dependents <;>
        simp [addEdgeRecord, depAppend, depdAppend, depsOf,
          lookupFile_updateFile, hl, hd, hd2]
    · by_cases hd2 : fp ∈ F.dependents <;>
        simp [addEdgeRecord, depAppend, depdAppend, depsOf,
          lookupFile_updateFile, hl, hd, hd2]
  · by_cases hd : target ∈ F.dependencies <;>
      simp [addEdgeRecord, depAppend, depdAppend, depsOf,
        lookupFile_updateFile, hl, hd, he]

theorem filter_length_mono {α : Type} (l : List α) (p q : α → Bool)
    (himp : ∀ a, q a = true → p a = true) :
    (l.filter q).length ≤ (l.filter p).length := by
  induction l with
  | nil => simp
  | cons a t ih =>
      by_cases hq : q a = true
      · have hp := himp a hq
        simp [List.filter_cons, hq, hp]
        omega
      · rw [List.filter_cons]
        simp only [hq, if_false, Bool.false_eq_true, ite_false] at *
        by_cases hp : p a = true <;> simp [List.filter_cons, hp] <;> omega

theorem filter_length_lt {α : Type} (l : List α) (p q : α → Bool)
    (himp : ∀ a, q a = true → p a = true) (x : α) (hx : x ∈ l)
    (hp : p x = true) (hq : q x = false) :
    (l.filter q).length < (l.filter p).length := by
  induction l with
  | nil => cases hx
  | cons a t ih =>
      rcases List.mem_cons.mp hx with h | h
      · subst h
        have hmono := filter_length_mono t p q himp
        simp [List.filter_cons, hp, hq]
        omega
      · have hlt := ih h
        by_cases hqa : q a = true
        · have hpa := himp a hqa
          simp [List.filter_cons, hqa, hpa]
          omega
        · rw [List.filter_cons, List.filter_cons]
          simp only [hqa, Bool.false_eq_true, ite_false]
          by_cases hpa : p a = true <;> simp [hpa] <;> omega

theorem containsKey_mem_keys (fm : List (String × AFile)) (c : String)
    (h : containsKey fm c = true) : c ∈ keysOf fm := by
  induction fm with
  | nil => simp [containsKey, lookupFile] at h
  | cons p rest ih =>
      obtain ⟨k0, v0⟩ := p
      by_cases h0 : k0 = c
      · simp [keysOf, h0]
      · simp only [containsKey, lookupFile, if_neg h0] at h
        simp only [keysOf, List.map_cons, List.mem_cons]
        exact Or.inr (ih h)

/-- Nodes of the analyzed set not yet recorded among the importer's
dependencies: the termination measure of the mutating-list loop. -/
def jsMissing (fm : List (String × AFile)) (fp : String) : Nat :=
  ((keysOf fm).filter fun k => !((depsOf fm fp).contains k)).length

/-- The JS/TS raw-dependency loop (lines 222-241).  Python iterates
`file_analysis.dependencies` by index while the body may append to it, so
the embedding re-reads the live list each step; it terminates because every
append records a previously missing key of the (fixed) file map. -/
def jsLoop (fm : List (String × AFile)) (edges : List (String × String))
    (fp : String) (i : Nat) :
    List (String × AFile) × List (String × String) :=
  if h : i < (depsOf fm fp).length then
    let st' :=
      match (jsDepCandidates ((depsOf fm fp).get ⟨i, h⟩)).find?
          (fun c => containsKey fm c) with
      | some target => addEdgeRecord fm edges fp target
      | none => (fm, edges)
    jsLoop st'.1 st'.2 fp (i + 1)
  else (fm, edges)
termination_by jsMissing fm fp + ((depsOf fm fp).length - i)
decreasing_by
  obtain ⟨F, hlF⟩ : ∃ F, lookupFile fm fp = some F := by
    cases hlk : lookupFile fm fp with
    | none => rw [depsOf, hlk] at h; simp at h
    | some F => exact ⟨F, rfl⟩
  have hFdeps : depsOf fm fp = F.dependencies := by simp [depsOf, hlF]
  cases hfind : (jsDepCandidates ((depsOf fm fp).get ⟨i, h⟩)).find?
      (fun c => containsKey fm c) with
  | none =>
      simp only [hfind]
      omega
  | some target =>
      simp only [hfind]
      have hkeys := keysOf_addEdgeRecord fm edges fp target
      have hdeps := depsOf_addEdgeRecord fm edges fp target F hlF
      have htk : containsKey fm target = true := by
        have := List.find?_some hfind
        simpa using this
      have htmem : target ∈ keysOf fm := containsKey_mem_keys fm target htk
      by_cases hd : target ∈ F.dependencies
      · rw [if_pos hd] at hdeps
        simp only [jsMissing, hkeys, hdeps, hFdeps]
        rw [hFdeps] at h
        omega
      · rw [if_neg hd] at hdeps
        have hstrict : jsMissing (addEdgeRecord fm edges fp target).1 fp <
            jsMissing fm fp := by
          simp only [jsMissing, hkeys, hdeps, hFdeps]
          refine filter_length_lt (keysOf fm) _ _ ?_ target htmem ?_ ?_
          · intro a ha
            simp only [Bool.not_eq_true', List.elem_eq_mem,
              decide_eq_false_iff_not] at ha ⊢
            intro hmem
            exact ha (List.mem_append_left _ hmem)
          · simp [List.elem_eq_mem, hd]
          · simp [List.elem_eq_mem]
        have hlen : (depsOf (addEdgeRecord fm edges fp target).1 fp).length =
            (depsOf fm fp).length + 1 := by rw [hdeps, hFdeps]; simp
        omega

/-- Per-file step of `_build_dependency_graph`: resolve each `Import`
record, then — for JS/TS files — the raw-dependency loop. -/
def processFile (st : List (String × AFile) × List (String × String))
    (fp : String) : List (String × AFile) × List (String × String) :=
  match lookupFile st.1 fp with
  | none => st
  | some F =>
      let st1 := importsLoop st fp F.language F.imports
      if F.language == "javascript" || F.language == "typescript" then
        jsLoop st1.1 st1.2 fp 0
      else st1

/-- `_build_dependency_graph(files)`: iterate the file map in insertion
order; returns the updated map and the recorded edges. -/
def buildDependencyGraph (files : List (String × AFile)) :
    List (String × AFile) × List (String × String) :=
  (files.map Prod.fst).foldl processFile (files, [])

/-- Scenario B's file map: `pkg/a.py` holds the `Import` record that
`PythonAnalyzer._handle_import_from` produces for `from .b import x`
(`module='b'`, `is_from_import=True`; CPython put the leading dot into
`level`, which the pydantic `Import` model silently drops), and its raw
dependency string `'.b'` from `get_dependencies`. -/
def scenarioBFiles : List (String × AFile) :=
  [("pkg/a.py", ⟨"python", [⟨"b", ["x"], none, true⟩], [".b"], []⟩),
   ("pkg/b.py", ⟨"python", [], [], []⟩)]

/-- **C1.** Dependency-graph construction over Scenario B's file map adds
no edge at all: the builder's relative-import branch tests
`imp.module.startswith('.')`, but the stored module string is `'b'` (the
dots live in the discarded `level`), so the candidates tried are `b.py`
and `b/__init__.py`, neither of which is in the map.  The claimed edge
`pkg/a.py -> pkg/b.py` is never produced, and both files keep their
original dependency lists. -/
theorem relative_import_unresolved :
    (buildDependencyGraph scenarioBFiles).2 = [] ∧
    lookupFile (buildDependencyGraph scenarioBFiles).1 "pkg/a.py" =
      some ⟨"python", [⟨"b", ["x"], none, true⟩], [".b"], []⟩ ∧
    lookupFile (buildDependencyGraph scenarioBFiles).1 "pkg/b.py" =
      some ⟨"python", [], [], []⟩ := by
  decide

/-! ### Symmetry of the recorded edges -/

/-- A resolved edge is recorded on both endpoints: target in the importer's
`dependencies`, importer in the target's `dependents`. -/
def EdgeRecorded (fm : List (String × AFile)) (e : String × String) : Prop :=
  ∃ fa fb, lookupFile fm e.1 = some fa ∧ lookupFile fm e.2 = some fb ∧
    e.2 ∈ fa.dependencies ∧ e.1 ∈ fb.dependents

/-- The file map only ever grows its per-file edge lists. -/
def MapLe (fm fm' : List (String × AFile)) : Prop :=
  ∀ k F, lookupFile fm k = some F → ∃ F', lookupFile fm' k = some F' ∧
    F.dependencies ⊆ F'.dependencies ∧ F.dependents ⊆ F'.dependents

theorem MapLe.rfl (fm : List (String × AFile)) : MapLe fm fm :=
  fun _ F h => ⟨F, h, fun _ ha => ha, fun _ ha => ha⟩

theorem MapLe.trans {fm1 fm2 fm3 : List (String × AFile)}
    (h12 : MapLe fm1 fm2) (h23 : MapLe fm2 fm3) : MapLe fm1 fm3 := by
  intro k F h1
  obtain ⟨F2, h2, hd2, ht2⟩ := h12 k F h1
  obtain ⟨F3, h3, hd3, ht3⟩ := h23 k F2 h2
  exact ⟨F3, h3, fun a ha => hd3 (hd2 ha), fun a ha => ht3 (ht2 ha)⟩

theorem EdgeRecorded.mono {fm fm' : List (String × AFile)}
    {e : String × String} (h : EdgeRecorded fm e) (hle : MapLe fm fm') :
    EdgeRecorded fm' e := by
  obtain ⟨fa, fb, ha, hb, hda, hdb⟩ := h
  obtain ⟨fa', ha', hda', _⟩ := hle e.1 fa ha
  obtain ⟨fb', hb', _, hdb'⟩ := hle e.2 fb hb
  exact ⟨fa', fb', ha', hb', hda' hda, hdb' hdb⟩

theorem MapLe.updateFile (fm : List (String × AFile)) (key : String)
    (f : AFile → AFile)
    (hf : ∀ F, F.dependencies ⊆ (f F).dependencies ∧
      F.dependents ⊆ (f F).dependents) :
    MapLe fm (updateFile fm key f) := by
  intro k F h
  rw [lookupFile_updateFile]
  by_cases hk : k = key
  · subst hk
    exact ⟨f F, by simp [h], (hf F).1, (hf F).2⟩
  · exact ⟨F, by simp [hk, h], fun _ ha => ha, fun _ ha => ha⟩

theorem MapLe.addEdgeRecord (fm : List (String × AFile))
    (edges : List (String × String)) (fp target : String) :
    MapLe fm (addEdgeRecord fm edges fp target).1 := by
  rw [PA.addEdgeRecord]
  refine MapLe.trans (MapLe.updateFile fm fp _ ?_) (MapLe.updateFile _ target _ ?_)
  · intro F
    by_cases hd : target ∈ F.dependencies <;>
      simp [depAppend, hd, List.subset_def] <;> intro a ha <;> simp [ha]
  · intro F
    by_cases hd : fp ∈ F.dependents <;>
      simp [depdAppend, hd, List.subset_def] <;> intro a ha <;> simp [ha]

theorem depAppend_mem (target : String) (F : AFile) :
    target ∈ (depAppend target F).dependencies := by
  rw [depAppend]
  by_cases hd : target ∈ F.dependencies <;> simp [hd]

theorem depAppend_dependents (target : String) (F : AFile) :
    (depAppend target F).dependents = F.dependents := by
  rw [depAppend]
  by_cases hd : target ∈ F.dependencies <;> simp [hd]

theorem depdAppend_mem (fp : String) (F : AFile) :
    fp ∈ (depdAppend fp F).dependents := by
  rw [depdAppend]
  by_cases hd : fp ∈ F.dependents <;> simp [hd]

theorem depdAppend_dependencies (fp : String) (F : AFile) :
    (depdAppend fp F).dependencies = F.dependencies := by
  rw [depdAppend]
  by_cases hd : fp ∈ F.dependents <;> simp [hd]

theorem addEdgeRecord_records (fm : List (String × AFile))
    (edges : List (String × String)) (fp target : String)
    (hfp : containsKey fm fp = true) (ht : containsKey fm target = true) :
    EdgeRecorded (addEdgeRecord fm edges fp target).1 (fp, target) := by
  obtain ⟨Fa, hFa⟩ : ∃ F, lookupFile fm fp = some F := by
    cases hl : lookupFile fm fp with
    | none => rw [containsKey, hl] at hfp; simp at hfp
    | some F => exact ⟨F, rfl⟩
  obtain ⟨Fb, hFb⟩ : ∃ F, lookupFile fm target = some F := by
    cases hl : lookupFile fm target with
    | none => rw [containsKey, hl] at ht; simp at ht
    | some F => exact ⟨F, rfl⟩
  rw [PA.addEdgeRecord]
  by_cases he : fp = target
  · subst he
    rw [hFa] at hFb
    obtain rfl : Fa = Fb := by injection hFb
    have hl2 : lookupFile
        (updateFile (updateFile fm fp (depAppend fp)) fp (depdAppend fp)) fp =
        some (depdAppend fp (depAppend fp Fa)) := by
      simp [lookupFile_updateFile, hFa]
    refine ⟨_, _, hl2, hl2, ?_, ?_⟩
    · rw [depdAppend_dependencies]
      exact depAppend_mem fp Fa
    · exact depdAppend_mem fp _
  · have hl1 : lookupFile
        (updateFile (updateFile fm fp (depAppend target)) target (depdAppend fp)) fp =
        some (depAppend target Fa) := by
      simp [lookupFile_updateFile, hFa, he]
    have hl2 : lookupFile
        (updateFile (updateFile fm fp (depAppend target)) target (depdAppend fp)) target =
        some (depdAppend fp Fb) := by
      simp [lookupFile_updateFile, hFb, Ne.symm he]
    refine ⟨_, _, hl1, hl2, ?_, ?_⟩
    · exact depAppend_mem target Fa
    · exact depdAppend_mem fp Fb

def dependentsOf (fm : List (String × AFile)) (k : String) : List String :=
  ((lookupFile fm k).map fun F => F.dependents).getD []

/-- All recorded edges are recorded on both endpoint files. -/
def GraphInv (st : List (String × AFile) × List (String × String)) : Prop :=
  ∀ e ∈ st.2, EdgeRecorded st.1 e

theorem containsKey_mono {fm fm' : List (String × AFile)} {k : String}
    (hle : MapLe fm fm') (h : containsKey fm k = true) :
    containsKey fm' k = true := by
  obtain ⟨F, hF⟩ : ∃ F, lookupFile fm k = some F := by
    cases hl : lookupFile fm k with
    | none => rw [containsKey, hl] at h; simp at h
    | some F => exact ⟨F, rfl⟩
  obtain ⟨F', hF', _, _⟩ := hle k F hF
  simp [containsKey, hF']

theorem processImport_inv (st : List (String × AFile) × List (String × String))
    (fp lang : String) (imp : PyImport)
    (hfp : containsKey st.1 fp = true) (hinv : GraphInv st) :
    GraphInv (processImport st fp lang imp) ∧
      MapLe st.1 (processImport st fp lang imp).1 := by
  rw [processImport]
  cases hfind : (importCandidates lang (modulePathOf fp imp)).find?
      (fun c => containsKey st.1 c) with
  | none => exact ⟨hinv, MapLe.rfl st.1⟩
  | some target =>
      have htk : containsKey st.1 target = true := by
        have := List.find?_some hfind
        simpa using this
      have hle := MapLe.addEdgeRecord st.1 st.2 fp target
      refine ⟨?_, hle⟩
      intro e hee
      have hE : (addEdgeRecord st.1 st.2 fp target).2 =
          st.2 ++ [(fp, target)] := rfl
      rw [hE] at hee
      simp only [List.mem_append, List.mem_singleton] at hee
      rcases hee with h | h
      · exact (hinv e h).mono hle
      · subst h
        exact addEdgeRecord_records st.1 st.2 fp target hfp htk

theorem importsLoop_inv
    (imps : List PyImport) :
    ∀ (st : List (String × AFile) × List (String × String)) (fp lang : String),
      containsKey st.1 fp = true → GraphInv st →
      GraphInv (importsLoop st fp lang imps) ∧
        MapLe st.1 (importsLoop st fp lang imps).1 := by
  induction imps with
  | nil =>
      intro st fp lang hfp hinv
      rw [importsLoop]
      exact ⟨hinv, MapLe.rfl st.1⟩
  | cons imp rest ih =>
      intro st fp lang hfp hinv
      rw [importsLoop]
      obtain ⟨hinv1, hle1⟩ := processImport_inv st fp lang imp hfp hinv
      obtain ⟨hinv2, hle2⟩ := ih _ fp lang (containsKey_mono hle1 hfp) hinv1
      exact ⟨hinv2, hle1.trans hle2⟩

theorem jsLoop_inv (fm : List (String × AFile)) (edges : List (String × String))
    (fp : String) (i : Nat) (hinv : GraphInv (fm, edges)) :
    GraphInv (jsLoop fm edges fp i) ∧ MapLe fm (jsLoop fm edges fp i).1 := by
  rw [jsLoop]
  by_cases h : i < (depsOf fm fp).length
  · rw [dif_pos h]
    have hfp : containsKey fm fp = true := by
      cases hl : lookupFile fm fp with
      | none => rw [depsOf, hl] at h; simp at h
      | some F => simp [containsKey, hl]
    cases hfind : (jsDepCandidates ((depsOf fm fp).get ⟨i, h⟩)).find?
        (fun c => containsKey fm c) with
    | none =>
        simp only [hfind]
        exact jsLoop_inv fm edges fp (i + 1) hinv
    | some target =>
        simp only [hfind]
        have htk : containsKey fm target = true := by
          have := List.find?_some hfind
          simpa using this
        have hle := MapLe.addEdgeRecord fm edges fp target
        have hinv' : GraphInv (addEdgeRecord fm edges fp target) := by
          intro e hee
          have hE : (addEdgeRecord fm edges fp target).2 =
              edges ++ [(fp, target)] := rfl
          rw [hE] at hee
          simp only [List.mem_append, List.mem_singleton] at hee
          rcases hee with h' | h'
          · exact (hinv e h').mono hle
          · subst h'
            exact addEdgeRecord_records fm edges fp target hfp htk
        obtain ⟨hinv2, hle2⟩ := jsLoop_inv (addEdgeRecord fm edges fp target).1
          (addEdgeRecord fm edges fp target).2 fp (i + 1) hinv'
        exact ⟨hinv2, hle.trans hle2⟩
  · rw [dif_neg h]
    exact ⟨hinv, MapLe.rfl fm⟩
termination_by jsMissing fm fp + ((depsOf fm fp).length - i)
decreasing_by
  · simp only [jsMissing]
    omega
  · obtain ⟨F, hlF⟩ : ∃ F, lookupFile fm fp = some F := by
      cases hlk : lookupFile fm fp with
      | none => rw [depsOf, hlk] at h; simp at h
      | some F => exact ⟨F, rfl⟩
    have hFdeps : depsOf fm fp = F.dependencies := by simp [depsOf, hlF]
    have hkeys := keysOf_addEdgeRecord fm edges fp target
    have hdeps := depsOf_addEdgeRecord fm edges fp target F hlF
    have htk : containsKey fm target = true := by
      have := List.find?_some hfind
      simpa using this
    have htmem : target ∈ keysOf fm := containsKey_mem_keys fm target htk
    by_cases hd : target ∈ F.dependencies
    · rw [if_pos hd] at hdeps
      simp only [jsMissing, hkeys, hdeps, hFdeps]
      rw [hFdeps] at h
      omega
    · rw [if_neg hd] at hdeps
      have hstrict : jsMissing (addEdgeRecord fm edges fp target).1 fp <
          jsMissing fm fp := by
        simp only [jsMissing, hkeys, hdeps, hFdeps]
        refine filter_length_lt (keysOf fm) _ _ ?_ target htmem ?_ ?_
        · intro a ha
          simp only [Bool.not_eq_true', List.elem_eq_mem,
            decide_eq_false_iff_not] at ha ⊢
          intro hmem
          exact ha (List.mem_append_left _ hmem)
        · simp [List.elem_eq_mem, hd]
        · simp [List.elem_eq_mem]
      have hlen : (depsOf (addEdgeRecord fm edges fp target).1 fp).length =
          (depsOf fm fp).length + 1 := by rw [hdeps, hFdeps]; simp
      omega

theorem processFile_inv (st : List (String × AFile) × List (String × String))
    (fp : String) (hinv : GraphInv st) : GraphInv (processFile st fp) := by
  rw [processFile]
  cases hl : lookupFile st.1 fp with
  | none => exact hinv
  | some F =>
      have hfp : containsKey st.1 fp = true := by simp [containsKey, hl]
      obtain ⟨hinv1, hle1⟩ := importsLoop_inv F.imports st fp F.language hfp hinv
      by_cases hjs : (F.language == "javascript" || F.language == "typescript") = true
      · simp only [hjs, if_true]
        exact (jsLoop_inv _ _ fp 0 hinv1).1
      · simp only [hjs, if_false]
        exact hinv1

/-- **C7.** After dependency-graph construction over any file map, every
resolved edge `a -> b` is recorded symmetrically: `b` is in `a`'s
`dependencies` list, `a` is in `b`'s `dependents` list, and hence the two
membership facts are equivalent for every edge. -/
theorem dependency_edge_symmetry (files : List (String × AFile))
    (e : String × String) (he : e ∈ (buildDependencyGraph files).2) :
    e.2 ∈ depsOf (buildDependencyGraph files).1 e.1 ∧
    e.1 ∈ dependentsOf (buildDependencyGraph files).1 e.2 ∧
    (e.2 ∈ depsOf (buildDependencyGraph files).1 e.1 ↔
      e.1 ∈ dependentsOf (buildDependencyGraph files).1 e.2) := by
  have hmain : GraphInv (buildDependencyGraph files) := by
    rw [buildDependencyGraph]
    have : ∀ (keys : List String)
        (st : List (String × AFile) × List (String × String)), GraphInv st →
        GraphInv (keys.foldl processFile st) := by
      intro keys
      induction keys with
      | nil => intro st h; simpa using h
      | cons k ks ih =>
          intro st h
          rw [List.foldl_cons]
          exact ih _ (processFile_inv st k h)
    exact this _ (files, []) (by intro e he; cases he)
  obtain ⟨fa, fb, ha, hb, hda, hdb⟩ := hmain e he
  rw [depsOf, dependentsOf, ha, hb]
  exact ⟨hda, hdb, iff_of_true hda hdb⟩

/-- A file map with one resolvable plain import (`import b` from `a.py`). -/
def symFiles : List (String × AFile) :=
  [("a.py", ⟨"python", [⟨"b", [], none, false⟩], [], []⟩),
   ("b.py", ⟨"python", [], [], []⟩)]

/-- Closed instantiation of the symmetry theorem on a map where the edge
`a.py -> b.py` actually resolves. -/
theorem dependency_edge_symmetry_witness :
    ("a.py", "b.py") ∈ (buildDependencyGraph symFiles).2 ∧
    "b.py" ∈ depsOf (buildDependencyGraph symFiles).1 "a.py" ∧
    "a.py" ∈ dependentsOf (buildDependencyGraph symFiles).1 "b.py" :=
  ⟨by decide,
    (dependency_edge_symmetry symFiles ("a.py", "b.py") (by decide)).1,
    (dependency_edge_symmetry symFiles ("a.py", "b.py") (by decide)).2.1⟩

/-! ## Extension table and analyzer dispatch (analyzers/base.py,
`BaseAnalyzer.get_file_type`; analyzers/code.py, `CodeAnalyzer.analyze` and
`_get_analyzer_class`) -/

/-- The literal extension dictionary of `get_file_type`. -/
def fileTypeTable : List (String × String) :=
  [(".py", "python"), (".js", "javascript"), (".ts", "typescript"),
   (".jsx", "react"), (".tsx", "react-typescript"), (".vue", "vue"),
   (".java", "java"), (".cpp", "c++"), (".c", "c"), (".go", "go"),
   (".rs", "rust"), (".rb", "ruby"), (".php", "php"), (".cs", "c#"),
   (".swift", "swift"), (".kt", "kotlin"), (".r", "r"), (".scala", "scala"),
   (".m", "objective-c"), (".h", "header"), (".css", "css"),
   (".scss", "scss"), (".less", "less"), (".html", "html"), (".xml", "xml"),
   (".json", "json"), (".yml", "yaml"), (".yaml", "yaml"),
   (".md", "markdown"), (".txt", "text"), (".sh", "shell"),
   (".bash", "shell"), (".zsh", "shell"), (".fish", "shell")]

/-- `get_file_type`: dictionary lookup on the lowercased suffix, default
`"unknown"`. -/
def getFileType (ext : String) : String :=
  ((fileTypeTable.find? fun p => p.1 == pyLower ext).map fun p => p.2).getD
    "unknown"

/-- The file types `CodeAnalyzer.analyze` admits for extraction
(lines 49-52). -/
def codeAnalyzeTypes : List String :=
  ["python", "javascript", "typescript", "react", "react-typescript",
   "c++", "c", "c#", "svelte"]

/-- `_get_analyzer_class`: file type to language-analyzer class. -/
def analyzerDispatch (fileType : String) : Option String :=
  (([("python", "PythonAnalyzer"), ("javascript", "JavaScriptAnalyzer"),
     ("typescript", "JavaScriptAnalyzer"), ("react", "JavaScriptAnalyzer"),
     ("react-typescript", "JavaScriptAnalyzer"), ("c++", "CppAnalyzer"),
     ("c", "CppAnalyzer"), ("c#", "CSharpAnalyzer"),
     ("svelte", "SvelteAnalyzer")] :
    List (String × String)).find? fun p => p.1 == fileType).map fun p => p.2

/-- **C8.** The extension table does *not* map as the conformance table
states: `.svelte` is absent from the dictionary, so `.svelte` files are
classified `"unknown"` and excluded from extraction even though both the
extraction filter and the dispatch table register a (dead) `"svelte"`
entry; `.h` maps to `"header"`, which is neither in the extraction filter
nor in the dispatch table, so headers are not extracted via the C/C++
analyzer.  The remaining representative rows, and the
unknown-is-excluded rule, do hold. -/
theorem extension_table_divergence :
    getFileType ".svelte" = "unknown" ∧
    getFileType ".h" = "header" ∧
    "unknown" ∉ codeAnalyzeTypes ∧
    "header" ∉ codeAnalyzeTypes ∧
    analyzerDispatch "header" = none ∧
    "svelte" ∈ codeAnalyzeTypes ∧
    analyzerDispatch "svelte" = some "SvelteAnalyzer" ∧
    (fileTypeTable.all fun p => p.2 ≠ "svelte") = true ∧
    getFileType ".py" = "python" ∧
    getFileType ".js" = "javascript" ∧ getFileType ".jsx" = "react" ∧
    getFileType ".ts" = "typescript" ∧
    getFileType ".tsx" = "react-typescript" ∧
    getFileType ".cpp" = "c++" ∧ getFileType ".c" = "c" ∧
    getFileType ".cs" = "c#" ∧
    getFileType ".xyz" = "unknown" ∧ "xyz" ∉ codeAnalyzeTypes := by
  decide

/-! ## Per-function complexity is computed but never attached
(analyzers/quality.py and analyzers/code.py)

`ComplexityVisitor` computes per-function scores, but
`QualityAnalyzer.analyze` stores only `function_calls`, `design_patterns`
and `code_smells`; `CodeAnalyzer.analyze`'s update loop (lines 70-99)
writes `calls`/`called_by`/`design_patterns`/`code_smells` and never
assigns `Function.complexity`, which the extractors construct with its
pydantic default `None`. -/

structure QFunction where
  name : String
  calls : List String
  called_by : List String
  complexity : Option Nat

structure QClass where
  name : String
  methods : List QFunction

structure Smell where
  kind : String
  line : Nat
  message : String

structure QFile where
  functions : List QFunction
  classes : List QClass
  design_patterns : List String
  code_smells : List Smell

structure QualityResults where
  function_calls : List (String × List String)
  design_patterns : List (String × List String)
  code_smells : List (String × List Smell)

def assocFind {β : Type} : List (String × β) → String → Option β
  | [], _ => none
  | (k, v) :: rest, key => if k = key then some v else assocFind rest key

/-- `func.called_by = [f for f, calls in function_calls.items()
if func.name in calls and f != file_path]`. -/
def calledByOf (fcalls : List (String × List String)) (fname fpath : String) :
    List String :=
  (fcalls.filter fun p => fname ∈ p.2 ∧ p.1 ≠ fpath).map Prod.fst

/-- Net per-function effect of the two update loops: `calls` filtered by
own name, `called_by` recomputed; no other field is written. -/
def updateFunction (fcalls : List (String × List String))
    (calls : List String) (fpath : String) (f : QFunction) : QFunction :=
  { f with
    calls := calls.filter fun c => c ≠ f.name
    called_by := calledByOf fcalls f.name fpath }

/-- `CodeAnalyzer.analyze` lines 70-99 for one file record. -/
def updateFileWithQuality (qr : QualityResults) (fpath : String)
    (file : QFile) : QFile :=
  let file1 :=
    match assocFind qr.function_calls fpath with
    | some calls =>
        { file with
          functions :=
            file.functions.map (updateFunction qr.function_calls calls fpath)
          classes := file.classes.map fun cl =>
            { cl with
              methods :=
                cl.methods.map (updateFunction qr.function_calls calls fpath) } }
    | none => file
  let file2 :=
    match assocFind qr.design_patterns fpath with
    | some pats => { file1 with design_patterns := pats }
    | none => file1
  match assocFind qr.code_smells fpath with
  | some sm => { file2 with code_smells := sm }
  | none => file2

def applyQualityUpdates (qr : QualityResults)
    (files : List (String × QFile)) : List (String × QFile) :=
  files.map fun p => (p.1, updateFileWithQuality qr p.1 p.2)

/-- The keys `QualityAnalyzer.analyze` returns — `complexity_scores` is
computed per file but not among them. -/
def qualityResultKeys : List String :=
  ["function_calls", "design_patterns", "code_smells"]

theorem updateFunction_complexity (fcalls : List (String × List String))
    (calls : List String) (fpath : String) (f : QFunction) :
    (updateFunction fcalls calls fpath f).complexity = f.complexity := rfl

/-- **C9.** The per-function complexity field is *not* populated: the
quality-update pass rewrites only `calls`/`called_by`/patterns/smells, so
every function record that enters it with the extractor's default
`complexity = None` leaves it with `complexity = None` — and
`"complexity_scores"` is not among the keys the quality analyzer returns
to the aggregator in the first place. -/
theorem complexity_never_populated (qr : QualityResults)
    (files : List (String × QFile))
    (h : ∀ p ∈ files, (∀ fn ∈ p.2.functions, fn.complexity = none) ∧
      ∀ cl ∈ p.2.classes, ∀ m ∈ cl.methods, m.complexity = none) :
    ("complexity_scores" ∉ qualityResultKeys) ∧
    ∀ p ∈ applyQualityUpdates qr files,
      (∀ fn ∈ p.2.functions, fn.complexity = none) ∧
      ∀ cl ∈ p.2.classes, ∀ m ∈ cl.methods, m.complexity = none := by
  refine ⟨by decide, ?_⟩
  intro p hp
  rw [applyQualityUpdates] at hp
  obtain ⟨q, hq, hpq⟩ := List.mem_map.mp hp
  obtain ⟨hqf, hqc⟩ := h q hq
  subst hpq
  rw [updateFileWithQuality]
  cases hc : assocFind qr.function_calls q.1 with
  | none =>
      cases hd : assocFind qr.design_patterns q.1 with
      | none =>
          cases hs : assocFind qr.code_smells q.1 <;>
            exact ⟨hqf, hqc⟩
      | some pats =>
          cases hs : assocFind qr.code_smells q.1 <;>
            exact ⟨hqf, hqc⟩
  | some calls =>
      have hf : ∀ fn ∈ (q.2.functions.map
          (updateFunction qr.function_calls calls q.1)), fn.complexity = none := by
        intro fn hfn
        obtain ⟨f0, hf0, hf0e⟩ := List.mem_map.mp hfn
        rw [← hf0e, updateFunction_complexity]
        exact hqf f0 hf0
      have hm : ∀ cl ∈ (q.2.classes.map fun cl =>
          { cl with methods :=
            cl.methods.map (updateFunction qr.function_calls calls q.1) }),
          ∀ m ∈ cl.methods, m.complexity = none := by
        intro cl hcl m hml
        obtain ⟨c0, hc0, hc0e⟩ := List.mem_map.mp hcl
        rw [← hc0e] at hml
        obtain ⟨m0, hm0, hm0e⟩ := List.mem_map.mp hml
        rw [← hm0e, updateFunction_complexity]
        exact hqc c0 hc0 m0 hm0
      cases hd : assocFind qr.design_patterns q.1 with
      | none =>
          cases hs : assocFind qr.code_smells q.1 <;> exact ⟨hf, hm⟩
      | some pats =>
          cases hs : assocFind qr.code_smells q.1 <;> exact ⟨hf, hm⟩

/-- Closed instantiation: one Python file `m.py` with one function `f`
(extractor default `complexity = None`), quality results that do carry
call data for it — after the update pass `f.complexity` is still `None`. -/
theorem complexity_never_populated_witness :
    ("complexity_scores" ∉ qualityResultKeys) ∧
    ∀ p ∈ applyQualityUpdates
      ⟨[("m.py", ["g"])], [("m.py", ["Factory"])], []⟩
      [("m.py", ⟨[⟨"f", [], [], none⟩], [], [], []⟩)],
      (∀ fn ∈ p.2.functions, fn.complexity = none) ∧
      ∀ cl ∈ p.2.classes, ∀ m ∈ cl.methods, m.complexity = none :=
  complexity_never_populated ⟨[("m.py", ["g"])], [("m.py", ["Factory"])], []⟩
    [("m.py", ⟨[⟨"f", [], [], none⟩], [], [], []⟩)]
    (by
      intro p hp
      simp only [List.mem_singleton] at hp
      subst hp
      constructor
      · intro fn hfn
        simp only [List.mem_singleton] at hfn
        subst hfn
        rfl
      · intro cl hcl
        cases hcl)

/-! ## Heuristic line scanners (analyzers/languages/cpp.py and
javascript.py)

The Python regexes are hand-translated to character-list matchers.  Every
optional group and greedy/lazy repetition involved is deterministic (its
character class is disjoint from what must follow), except the leading
`(?:virtual\s+)?(?:static\s+)?` / `(?:static\s+)?(?:const\s+)?` options,
which are tried in the regex backtracking order (both, first only, second
only, neither — first full match wins). -/

/-- `str.strip()` (ASCII whitespace model). -/
def pyStrip (s : String) : String :=
  ⟨(s.data.dropWhile Char.isWhitespace).reverse.dropWhile
      Char.isWhitespace |>.reverse⟩

/-- Split on a character-class separator, keeping empty fields. -/
def splitPredList (p : Char → Bool) : List Char → List (List Char)
  | [] => [[]]
  | x :: xs =>
      match splitPredList p xs with
      | [] => [[]]
      | h :: t => if p x then [] :: h :: t else (x :: h) :: t

/-- `str.split()` (no argument): whitespace-separated words. -/
def pyWords (s : String) : List String :=
  ((splitPredList Char.isWhitespace s.data).filter fun l => l ≠ []).map
    fun l => ⟨l⟩

def countChar (c : Char) (s : String) : Nat := s.data.count c

/-- `line.count('{') - line.count('}')`. -/
def braceDelta (l : String) : Int :=
  (countChar '{' l : Int) - (countChar '}' l : Int)

/-- `\w` (ASCII model of Python's re word character). -/
def isWordChar (c : Char) : Bool := c.isAlphanum || c = '_'

/-- `[\w:~<>]` — the return-type class of the function-signature regex. -/
def isTypeChar (c : Char) : Bool :=
  isWordChar c || c = ':' || c = '~' || c = '<' || c = '>'

/-- `[\w:~]` — the function-name class. -/
def isNameChar (c : Char) : Bool := isWordChar c || c = ':' || c = '~'

/-- `[\w:]` — the variable-type class. -/
def isVarTypeChar (c : Char) : Bool := isWordChar c || c = ':'

/-- `kw\s+` as a prefix: the keyword followed by at least one whitespace
character (both greedy, deterministic). -/
def tryKeyword (kw : List Char) (cs : List Char) : Option (List Char) :=
  if kw.isPrefixOf cs then
    let r := cs.drop kw.length
    let r2 := r.dropWhile Char.isWhitespace
    if r2.length = r.length then none else some r2
  else none

/-- The alternatives of `(?:kw1\s+)?(?:kw2\s+)?` in regex backtracking
order: both, kw1 only, kw2 only, neither. -/
def optTwoKeywords (kw1 kw2 : List Char) (cs : List Char) : List (List Char) :=
  (match tryKeyword kw1 cs with
    | some r1 =>
        (match tryKeyword kw2 r1 with
          | some r2 => [r2]
          | none => []) ++ [r1]
    | none => []) ++
  (match tryKeyword kw2 cs with
    | some r => [r]
    | none => []) ++ [cs]

def firstMatch {α : Type} (f : List Char → Option α) :
    List (List Char) → Option α
  | [] => none
  | c :: cs =>
      match f c with
      | some x => some x
      | none => firstMatch f cs

def lastIndexOf (c : Char) (l : List Char) : Option Nat :=
  match l.reverse.findIdx? (· = c) with
  | some k => some (l.length - 1 - k)
  | none => none

/-- Offset form of the brace-counting loop (`_parse_class` lines 145-150,
`_parse_function` lines 212-217): add each line's `{`/`}` delta, stop on
zero (after counting the line) or at end of input. -/
def scanBracesOff (count : Int) : List String → Nat
  | [] => 0
  | l :: t =>
      let c := count + braceDelta l
      if c = 0 then 0 else 1 + scanBracesOff c t

/-- Offset form of `while i < len(lines) and not p(lines[i]): i += 1`. -/
def scanUntilOff (p : String → Bool) : List String → Nat
  | [] => 0
  | l :: t => if p l then 0 else 1 + scanUntilOff p t

/-- Core of `[\w:~<>]+\s+[\w:~]+\s*\(`: returns (return type, name, rest
after the opening parenthesis). -/
def matchFuncCore (cs : List Char) : Option (List Char × List Char × List Char) :=
  let s1 := cs.span isTypeChar
  if s1.1 = [] then none else
  let s2 := s1.2.span Char.isWhitespace
  if s2.1 = [] then none else
  let s3 := s2.2.span isNameChar
  if s3.1 = [] then none else
  match s3.2.dropWhile Char.isWhitespace with
  | '(' :: rest => some (s1.1, s3.1, rest)
  | _ => none

/-- `_is_function_definition`'s regex
`^(?:virtual\s+)?(?:static\s+)?[\w:~<>]+\s+[\w:~]+\s*\(`. -/
def cppIsFunctionDefinition (line : String) : Bool :=
  (firstMatch matchFuncCore
    (optTwoKeywords "virtual".data "static".data line.data)).isSome

/-- `_parse_function`'s regex adds the lazy parameter group
`\((.*?)\)(?:\s*const)?(?:\s*=\s*0)?`: parameters are the characters up to
the *first* closing parenthesis, and the two trailing optional groups
cannot fail. -/
def matchFuncFull (cs : List Char) : Option (String × String × String) :=
  firstMatch
    (fun r =>
      match matchFuncCore r with
      | some (t1, t2, rest) =>
          if ')' ∈ rest then
            some (⟨t1⟩, ⟨t2⟩, ⟨rest.takeWhile (· ≠ ')')⟩)
          else none
      | none => none)
    (optTwoKeywords "virtual".data "static".data cs)

/-- `parts[-1].strip('&*')`. -/
def stripAmpStar (s : String) : String :=
  ⟨(s.data.dropWhile fun c => c = '&' || c = '*').reverse.dropWhile
      (fun c => c = '&' || c = '*') |>.reverse⟩

/-- Parameter-list parsing of `_parse_function` (lines 190-205):
split on commas, strip, whitespace-split, last word (stripped of `&`/`*`)
is the name, the rest joined is the type. -/
def parseParams (paramsStr : String) : List (String × String) :=
  if (pyStrip paramsStr).data = [] then []
  else
    (pySplit ',' paramsStr).filterMap fun pr =>
      let pr := pyStrip pr
      if pr.data = [] then none
      else
        match (pyWords pr).reverse with
        | [] => none
        | lastw :: restRev =>
            some (stripAmpStar lastw, String.intercalate " " restRev.reverse)

structure CppFunction where
  name : String
  returns : String
  params : List (String × String)
  lineStart : Nat
  lineEnd : Nat
  colEnd : Nat
deriving DecidableEq

structure CppClass where
  name : String
  bases : List String
  doc : String
  lineStart : Nat
  lineEnd : Nat
  colEnd : Nat
deriving DecidableEq

structure CppVariable where
  name : String
  type : String
  value : Option String
  scope : String
  line : Nat
  colEnd : Nat
deriving DecidableEq

/-- `CppAnalyzer._parse_function`.  After a signature match, the block-end
scan leaves `i` one past the last line whenever the braces never return to
zero (or no `{` is ever found), and the subsequent `len(lines[i])` in the
`CodeLocation` construction is then an out-of-range access — modelled as
`Except.error`. -/
def cppParseFunction (ns : List String) (lines : List String) (start : Nat) :
    Except String (Option (CppFunction × Nat)) :=
  let line := pyStrip ((lines.get? start).getD "")
  match matchFuncFull line.data with
  | none => .ok none
  | some (ret, nm, paramsStr) =>
      let i :=
        if '{' ∈ line.data then
          start + 1 + scanBracesOff 1 (lines.drop (start + 1))
        else
          start + scanUntilOff (fun l => pyIn "\x7b" l) (lines.drop start)
      match lines.get? i with
      | none => .error "IndexError: list index out of range"
      | some li =>
          .ok (some (⟨String.intercalate "::" (ns ++ [nm]), ret,
            parseParams paramsStr, start, i, li.length⟩, i))

/-- `namespace\s+(\w+)\s*{?` (the trailing part cannot fail). -/
def matchNamespaceName (cs : List Char) : Option String :=
  match tryKeyword "namespace".data cs with
  | some r =>
      let s := r.span isWordChar
      if s.1 = [] then none else some ⟨s.1⟩
  | none => none

/-- `CppAnalyzer._parse_namespace`. -/
def cppParseNamespace (lines : List String) (start : Nat) :
    Option (String × Nat) :=
  let line := pyStrip ((lines.get? start).getD "")
  match matchNamespaceName line.data with
  | none => none
  | some nm =>
      if '{' ∈ line.data then some (nm, start)
      else
        some (nm, start + 1 +
          scanUntilOff (fun l => pyIn "\x7b" l) (lines.drop (start + 1)))

/-- `CppAnalyzer._parse_include` (only the quoted, local form yields an
`Import`; `line.split('"')[1]` is safe because `'"' in line` held). -/
def cppParseInclude (line : String) (lineNum : Nat) : Option (String × Nat) :=
  if '"' ∈ line.data then
    some ((((pySplit '"' line).get? 1).getD ""), lineNum)
  else none

/-- `template\s*<(.+)>`: greedy `.+` reaches the *last* `>` and must be
nonempty. -/
def matchTemplateParams (cs : List Char) : Option (List Char) :=
  if "template".data.isPrefixOf cs then
    match (cs.drop 8).dropWhile Char.isWhitespace with
    | '<' :: rest =>
        match lastIndexOf '>' rest with
        | some k => if 1 ≤ k then some (rest.take k) else none
        | none => none
    | _ => none
  else none

theorem tryKeyword_length_lt (kw cs r : List Char)
    (h : tryKeyword kw cs = some r) : r.length < cs.length := by
  rw [tryKeyword] at h
  by_cases hp : kw.isPrefixOf cs
  · simp only [hp, if_true] at h
    have hle : kw.length ≤ cs.length :=
      (List.isPrefixOf_iff_prefix.mp hp).length_le
    by_cases hlen : ((cs.drop kw.length).dropWhile Char.isWhitespace).length =
        (cs.drop kw.length).length
    · simp [hlen] at h
    · simp only [hlen, if_false] at h
      have heq : ((cs.drop kw.length).dropWhile Char.isWhitespace) = r := by
        injection h
      have h1 : r.length ≤ (cs.drop kw.length).length := by
        rw [← heq]
        exact List.Sublist.length_le (List.dropWhile_sublist _)
      have h2 : r.length ≠ (cs.drop kw.length).length := by
        rw [← heq]
        exact hlen
      have h3 := List.length_drop kw.length cs
      omega
  · simp [hp] at h

/-- `re.sub(r'(public|private|protected)\s+', '', b)`: delete every
occurrence of an access keyword followed by whitespace. -/
def stripAccess (cs : List Char) : List Char :=
  match cs with
  | [] => []
  | c :: t =>
      match h1 : tryKeyword "public".data (c :: t) with
      | some r => stripAccess r
      | none =>
          match h2 : tryKeyword "private".data (c :: t) with
          | some r => stripAccess r
          | none =>
              match h3 : tryKeyword "protected".data (c :: t) with
              | some r => stripAccess r
              | none => c :: stripAccess t
termination_by cs.length
decreasing_by
  · exact tryKeyword_length_lt _ _ _ h1
  · exact tryKeyword_length_lt _ _ _ h2
  · exact tryKeyword_length_lt _ _ _ h3
  · simp

/-- `(class|struct)\s+(\w+)(?:\s*:\s*(.+))?`. -/
def matchClassRest (ct : String) (r : List Char) :
    Option (String × String × Option String) :=
  let s := r.span isWordChar
  if s.1 = [] then none
  else
    match s.2.dropWhile Char.isWhitespace with
    | ':' :: r3 =>
        let g := r3.dropWhile Char.isWhitespace
        if g = [] then some (ct, ⟨s.1⟩, none) else some (ct, ⟨s.1⟩, some ⟨g⟩)
    | _ => some (ct, ⟨s.1⟩, none)

def matchClassDecl (cs : List Char) : Option (String × String × Option String) :=
  match tryKeyword "class".data cs with
  | some r => matchClassRest "class" r
  | none =>
      match tryKeyword "struct".data cs with
      | some r => matchClassRest "struct" r
      | none => none

/-- `CppAnalyzer._parse_class` after the template-header handling:
`start1`/`line1` are the (possibly advanced) scan position and its stripped
line, `tps` the template parameters. -/
def cppParseClassCore (ns : List String) (lines : List String)
    (tps : List String) (start1 : Nat) (line1 : String) :
    Except String (Option (CppClass × Nat)) :=
  match matchClassDecl line1.data with
  | none => .ok none
  | some (ct, nm, g3) =>
      let inheritance :=
        match g3 with
        | none => []
        | some g =>
            ((pySplit ',' g).map pyStrip).map fun b =>
              (⟨stripAccess b.data⟩ : String)
      let i := start1 + 1 +
        scanBracesOff (if '{' ∈ line1.data then 1 else 0)
          (lines.drop (start1 + 1))
      match lines.get? i with
      | none => .error "IndexError: list index out of range"
      | some li =>
          let fullName := String.intercalate "::" (ns ++ [nm]) ++
            (if tps ≠ [] then "<" ++ String.intercalate "," tps ++ ">"
             else "")
          let doc := (if ct = "class" then "Class" else "Struct") ++
            (if tps ≠ [] then " Template" else "")
          .ok (some (⟨fullName, inheritance, doc, start1, i, li.length⟩, i))

/-- `CppAnalyzer._parse_class`, including the template-header hop
(`start += 1; line = lines[start].strip()` — itself an out-of-range access
when the template header is the last line) and the final
`len(lines[i])`. -/
def cppParseClass (ns : List String) (lines : List String) (start : Nat) :
    Except String (Option (CppClass × Nat)) :=
  let line := pyStrip ((lines.get? start).getD "")
  if pyStartsWith line "template" then
    match matchTemplateParams line.data with
    | some inner =>
        match lines.get? (start + 1) with
        | none => .error "IndexError: list index out of range"
        | some l1 =>
            cppParseClassCore ns lines ((pySplit ',' ⟨inner⟩).map pyStrip)
              (start + 1) (pyStrip l1)
    | none => cppParseClassCore ns lines [] start line
  else cppParseClassCore ns lines [] start line

/-- Tail `(?:\s*=\s*(0+ ws, =, 0+ ws, lazy-greedy value))?;` of the
variable regexes: with the value group, the greedy `.+` reaches the last
`;` (at least one character before it; an all-whitespace value keeps its
final character, the rest being absorbed by `\s*`); without it, `;` must
directly follow the name. -/
def matchVarTail (r3 : List Char) : Option (Option (List Char)) :=
  let withGroup : Option (Option (List Char)) :=
    match r3.dropWhile Char.isWhitespace with
    | '=' :: r5 =>
        match lastIndexOf ';' r5 with
        | some k =>
            if 1 ≤ k then
              let p := r5.take k
              let g := p.dropWhile Char.isWhitespace
              some (some (if g = [] then p.drop (p.length - 1) else g))
            else none
        | none => none
    | _ => none
  match withGroup with
  | some g => some g
  | none =>
      match r3 with
      | ';' :: _ => some none
      | _ => none

/-- `_parse_variable`'s regex
`^(?:static\s+)?(?:const\s+)?([\w:]+)\s+(\w+)(?:\s*=\s*(.+))?;`.
(`_is_variable_declaration`'s variant `(?:\s*=.+)?;` differs only in not
skipping whitespace inside the captured value, which does not change
matchability.) -/
def matchVarDecl (cs : List Char) : Option (String × String × Option String) :=
  firstMatch
    (fun r =>
      let s1 := r.span isVarTypeChar
      if s1.1 = [] then none else
      let s2 := s1.2.span Char.isWhitespace
      if s2.1 = [] then none else
      let s3 := s2.2.span isWordChar
      if s3.1 = [] then none else
      match matchVarTail s3.2 with
      | some g => some (⟨s1.1⟩, ⟨s3.1⟩, g.map fun l => (⟨l⟩ : String))
      | none => none)
    (optTwoKeywords "static".data "const".data cs)

def cppIsVariableDeclaration (line : String) : Bool :=
  (matchVarDecl line.data).isSome

/-- `CppAnalyzer._parse_variable`. -/
def cppParseVariable (ns : List String) (line : String) (lineNum : Nat) :
    Option CppVariable :=
  (matchVarDecl line.data).map fun m =>
    ⟨m.2.1, m.1, m.2.2, if ns ≠ [] then "namespace" else "global",
      lineNum, line.length⟩

structure CppAcc where
  functions : List CppFunction
  classes : List CppClass
  vars : List CppVariable
  imports : List (String × Nat)
  ns : List String
deriving DecidableEq

/-- One iteration of `CppAnalyzer.analyze`'s while loop at index `i`
(the caller guarantees `i < len(lines)`): the `elif` dispatch, the
accumulator updates, and the next cursor value (`i` possibly moved by a
parse result, then the unconditional `i += 1`). -/
def cppStep (lines : List String) (acc : CppAcc) (i : Nat) :
    Except String (CppAcc × Nat) :=
  let line := pyStrip ((lines.get? i).getD "")
  if pyStartsWith line "#include" then
    match cppParseInclude line i with
    | some imp => .ok ({ acc with imports := acc.imports ++ [imp] }, i + 1)
    | none => .ok (acc, i + 1)
  else if pyStartsWith line "namespace" then
    match cppParseNamespace lines i with
    | some nsr => .ok ({ acc with ns := acc.ns ++ [nsr.1] }, nsr.2 + 1)
    | none => .ok (acc, i + 1)
  else if pyStartsWith line "class " || pyStartsWith line "struct " ||
      pyStartsWith line "template" then
    match cppParseClass acc.ns lines i with
    | .error e => .error e
    | .ok (some cr) =>
        .ok ({ acc with classes := acc.classes ++ [cr.1] }, cr.2 + 1)
    | .ok none => .ok (acc, i + 1)
  else if cppIsFunctionDefinition line then
    match cppParseFunction acc.ns lines i with
    | .error e => .error e
    | .ok (some fr) =>
        .ok ({ acc with functions := acc.functions ++ [fr.1] }, fr.2 + 1)
    | .ok none => .ok (acc, i + 1)
  else if cppIsVariableDeclaration line then
    match cppParseVariable acc.ns line i with
    | some v => .ok ({ acc with vars := acc.vars ++ [v] }, i + 1)
    | none => .ok (acc, i + 1)
  else .ok (acc, i + 1)

theorem cppParseNamespace_ge (lines : List String) (start : Nat)
    (nm : String) (j : Nat) (h : cppParseNamespace lines start = some (nm, j)) :
    start ≤ j := by
  rw [cppParseNamespace] at h
  cases hm : matchNamespaceName (pyStrip ((lines.get? start).getD "")).data with
  | none => rw [hm] at h; cases h
  | some nm' =>
      rw [hm] at h
      by_cases hb : '{' ∈ (pyStrip ((lines.get? start).getD "")).data
      · simp only [hb, if_true, Option.some.injEq, Prod.mk.injEq] at h
        omega
      · simp only [hb, if_false, Option.some.injEq, Prod.mk.injEq] at h
        omega

theorem cppParseFunction_ge (ns : List String) (lines : List String)
    (start : Nat) (fn : CppFunction) (j : Nat)
    (h : cppParseFunction ns lines start = .ok (some (fn, j))) : start ≤ j := by
  rw [cppParseFunction] at h
  cases hm : matchFuncFull (pyStrip ((lines.get? start).getD "")).data with
  | none => rw [hm] at h; cases h
  | some m =>
      obtain ⟨ret, nm, ps⟩ := m
      rw [hm] at h
      simp only at h
      by_cases hb : '{' ∈ (pyStrip ((lines.get? start).getD "")).data
      · simp only [hb, if_true] at h
        cases hg : lines.get? (start + 1 +
            scanBracesOff 1 (lines.drop (start + 1))) with
        | none => rw [hg] at h; cases h
        | some li =>
            rw [hg] at h
            simp only [Except.ok.injEq, Option.some.injEq, Prod.mk.injEq] at h
            omega
      · simp only [hb, if_false] at h
        cases hg : lines.get? (start +
            scanUntilOff (fun l => pyIn "\x7b" l) (lines.drop start)) with
        | none => rw [hg] at h; cases h
        | some li =>
            rw [hg] at h
            simp only [Except.ok.injEq, Option.some.injEq, Prod.mk.injEq] at h
            omega

theorem cppParseClassCore_ge (ns : List String) (lines : List String)
    (tps : List String) (start1 : Nat) (line1 : String) (cls : CppClass)
    (j : Nat) (h : cppParseClassCore ns lines tps start1 line1 =
      .ok (some (cls, j))) : start1 < j := by
  rw [cppParseClassCore] at h
  cases hm : matchClassDecl line1.data with
  | none => rw [hm] at h; simp at h
  | some m =>
      obtain ⟨ct, nm, g3⟩ := m
      rw [hm] at h
      simp only at h
      cases hg : lines.get? (start1 + 1 +
          scanBracesOff (if '{' ∈ line1.data then 1 else 0)
            (lines.drop (start1 + 1))) with
      | none => rw [hg] at h; simp at h
      | some li =>
          rw [hg] at h
          simp only [Except.ok.injEq, Option.some.injEq, Prod.mk.injEq] at h
          omega

theorem cppParseClass_ge (ns : List String) (lines : List String)
    (start : Nat) (cls : CppClass) (j : Nat)
    (h : cppParseClass ns lines start = .ok (some (cls, j))) : start ≤ j := by
  rw [cppParseClass] at h
  by_cases ht : pyStartsWith (pyStrip ((lines.get? start).getD "")) "template"
  · simp only [ht, if_true] at h
    cases hm : matchTemplateParams (pyStrip ((lines.get? start).getD "")).data with
    | none =>
        rw [hm] at h
        have := cppParseClassCore_ge _ _ _ _ _ _ _ h
        omega
    | some inner =>
        rw [hm] at h
        cases hg : lines.get? (start + 1) with
        | none => rw [hg] at h; simp at h
        | some l1 =>
            rw [hg] at h
            have := cppParseClassCore_ge _ _ _ _ _ _ _ h
            omega
  · simp only [ht, if_false] at h
    have := cppParseClassCore_ge _ _ _ _ _ _ _ h
    omega

theorem cppStep_gt (lines : List String) (acc : CppAcc) (i : Nat)
    (acc' : CppAcc) (n : Nat) (h : cppStep lines acc i = .ok (acc', n)) :
    i < n := by
  simp only [cppStep] at h
  by_cases h1 : pyStartsWith (pyStrip ((lines.get? i).getD "")) "#include"
  · simp only [h1, if_true] at h
    cases hm : cppParseInclude (pyStrip ((lines.get? i).getD "")) i with
    | some imp =>
        rw [hm] at h
        simp only [Except.ok.injEq, Prod.mk.injEq] at h
        obtain ⟨-, hn⟩ := h
        omega
    | none =>
        rw [hm] at h
        simp only [Except.ok.injEq, Prod.mk.injEq] at h
        obtain ⟨-, hn⟩ := h
        omega
  · simp only [h1, if_false] at h
    by_cases h2 : pyStartsWith (pyStrip ((lines.get? i).getD "")) "namespace"
    · simp only [h2, if_true] at h
      cases hm : cppParseNamespace lines i with
      | some nsr =>
          rw [hm] at h
          simp only [Except.ok.injEq, Prod.mk.injEq] at h
          obtain ⟨-, hn⟩ := h
          have := cppParseNamespace_ge lines i nsr.1 nsr.2 (by rw [hm])
          omega
      | none =>
          rw [hm] at h
          simp only [Except.ok.injEq, Prod.mk.injEq] at h
          obtain ⟨-, hn⟩ := h
          omega
    · simp only [h2, if_false] at h
      by_cases h3 : (pyStartsWith (pyStrip ((lines.get? i).getD "")) "class " ||
          pyStartsWith (pyStrip ((lines.get? i).getD "")) "struct " ||
          pyStartsWith (pyStrip ((lines.get? i).getD "")) "template") = true
      · simp only [h3, if_true] at h
        cases hm : cppParseClass acc.ns lines i with
        | error e => rw [hm] at h; simp at h
        | ok o =>
            cases o with
            | none =>
                rw [hm] at h
                simp only [Except.ok.injEq, Prod.mk.injEq] at h
                obtain ⟨-, hn⟩ := h
                omega
            | some cr =>
                rw [hm] at h
                simp only [Except.ok.injEq, Prod.mk.injEq] at h
                obtain ⟨-, hn⟩ := h
                have := cppParseClass_ge acc.ns lines i cr.1 cr.2 (by rw [hm])
                omega
      · simp only [h3, if_false] at h
        by_cases h4 : cppIsFunctionDefinition (pyStrip ((lines.get? i).getD ""))
        · simp only [h4, if_true] at h
          cases hm : cppParseFunction acc.ns lines i with
          | error e => rw [hm] at h; simp at h
          | ok o =>
              cases o with
              | none =>
                  rw [hm] at h
                  simp only [Except.ok.injEq, Prod.mk.injEq] at h
                  obtain ⟨-, hn⟩ := h
                  omega
              | some fr =>
                  rw [hm] at h
                  simp only [Except.ok.injEq, Prod.mk.injEq] at h
                  obtain ⟨-, hn⟩ := h
                  have := cppParseFunction_ge acc.ns lines i fr.1 fr.2 (by rw [hm])
                  omega
        · simp only [h4, if_false] at h
          by_cases h5 : cppIsVariableDeclaration (pyStrip ((lines.get? i).getD ""))
          · simp only [h5, if_true] at h
            cases hm : cppParseVariable acc.ns (pyStrip ((lines.get? i).getD "")) i with
            | some v =>
                rw [hm] at h
                simp only [Except.ok.injEq, Prod.mk.injEq] at h
                obtain ⟨-, hn⟩ := h
                omega
            | none =>
                rw [hm] at h
                simp only [Except.ok.injEq, Prod.mk.injEq] at h
                obtain ⟨-, hn⟩ := h
                omega
          · simp only [h5, if_false] at h
            obtain ⟨-, hn⟩ := h
            omega

/-- `CppAnalyzer.analyze`'s main while loop: terminates because every step
strictly advances the cursor (`cppStep_gt`). -/
def cppIter (lines : List String) (acc : CppAcc) (i : Nat) :
    Except String CppAcc :=
  if h : i < lines.length then
    match hs : cppStep lines acc i with
    | .error e => .error e
    | .ok (acc', n) => cppIter lines acc' n
  else .ok acc
termination_by lines.length - i
decreasing_by
  have := cppStep_gt lines acc i acc' n hs
  omega

/-- `CppAnalyzer.analyze`. -/
def cppAnalyze (content : String) : Except String CppAcc :=
  cppIter (pySplit '\n' content) ⟨[], [], [], [], []⟩ 0

instance {α β : Type} [DecidableEq α] [DecidableEq β] :
    DecidableEq (Except α β) := fun x y =>
  match x, y with
  | .error a, .error b =>
      if h : a = b then .isTrue (congrArg Except.error h)
      else .isFalse (fun hc => h (Except.error.inj hc))
  | .error _, .ok _ => .isFalse (fun hc => Except.noConfusion hc)
  | .ok _, .error _ => .isFalse (fun hc => Except.noConfusion hc)
  | .ok a, .ok b =>
      if h : a = b then .isTrue (congrArg Except.ok h)
      else .isFalse (fun hc => h (Except.ok.inj hc))

/-- `line.strip().lstrip('* ')`: the leading strip of `'*'` and `' '`. -/
def jsLstripStarSpace : List Char → List Char
  | [] => []
  | c :: t => if c = '*' || c = ' ' then jsLstripStarSpace t else c :: t

/-- `.rstrip('*/')`: strip trailing `'*'` and `'/'` characters. -/
def jsRstripStarSlash (cs : List Char) : List Char :=
  (cs.reverse.dropWhile fun c => c = '*' || c = '/').reverse

/-- `'\n'.join`. -/
def joinNL : List String → String
  | [] => ""
  | [s] => s
  | s :: t => s ++ "\n" ++ joinNL t

/-- A body line of a JSDoc block: `lines[i].strip().lstrip('* ')`. -/
def jsStripStar (l : String) : String :=
  ⟨jsLstripStarSpace (pyStrip l).data⟩

/-- `JavaScriptAnalyzer._extract_jsdoc`: scans from `start` for the first
line containing `*/`; on success returns the joined comment body and
`i + 1` where `i` is the index of the closing line. -/
def jsExtractJsdoc (lines : List String) (start : Nat) :
    Option (String × Nat) :=
  if pyStartsWith (pyStrip ((lines.get? start).getD "")) "/**" then
    if scanUntilOff (fun l => pyIn "*/" l) (lines.drop start) <
        (lines.drop start).length then
      some
        (joinNL
          (((lines.drop start).take
              (scanUntilOff (fun l => pyIn "*/" l) (lines.drop start))).map
                jsStripStar ++
            [⟨jsRstripStarSlash (jsLstripStarSpace
                (pyStrip (((lines.drop start).get?
                  (scanUntilOff (fun l => pyIn "*/" l)
                    (lines.drop start))).getD "")).data)⟩]),
        start + scanUntilOff (fun l => pyIn "*/" l) (lines.drop start) + 1)
    else none
  else none

/-- One iteration of `JavaScriptAnalyzer.analyze`'s while loop, cursor
only: `i = jsdoc[1]` when a JSDoc block is found, then `i += 1`. -/
def jsNextIndex (lines : List String) (i : Nat) : Nat :=
  match jsExtractJsdoc lines i with
  | some r => r.2 + 1
  | none => i + 1

theorem jsExtractJsdoc_gt (lines : List String) (start : Nat) (c : String)
    (j : Nat) (h : jsExtractJsdoc lines start = some (c, j)) : start < j := by
  rw [jsExtractJsdoc] at h
  by_cases h1 : pyStartsWith (pyStrip ((lines.get? start).getD "")) "/**"
  · rw [if_pos h1] at h
    by_cases h2 : scanUntilOff (fun l => pyIn "*/" l) (lines.drop start) <
        (lines.drop start).length
    · rw [if_pos h2] at h
      simp only [Option.some.injEq, Prod.mk.injEq] at h
      obtain ⟨-, hj⟩ := h
      omega
    · rw [if_neg h2] at h; cases h
  · rw [if_neg h1] at h; cases h

/-- The modifier literals of `_is_type_definition` / `_parse_type_definition`
(each one keyword plus a single space). -/
def csTypeMods : List (List Char) :=
  ["public ".data, "internal ".data, "private ".data, "protected ".data,
   "abstract ".data, "sealed ".data]

/-- The modifier literals of `_is_method_definition`. -/
def csMethodMods : List (List Char) :=
  ["public ".data, "private ".data, "protected ".data, "internal ".data,
   "static ".data, "virtual ".data, "override ".data, "abstract ".data]

/-- The modifier literals of `_is_member_definition`. -/
def csMemberMods : List (List Char) :=
  ["public ".data, "private ".data, "protected ".data, "internal ".data,
   "static ".data, "readonly ".data, "const ".data]

/-- One iteration of a `(?:mod1 |mod2 |...)*` star: the first alternative
that is a literal prefix (the literals are pairwise prefix-incompatible,
so at most one matches at any position). -/
def csTryMod (mods : List (List Char)) (cs : List Char) : Option (List Char) :=
  match mods with
  | [] => none
  | m :: t => if m.isPrefixOf cs then some (cs.drop m.length) else csTryMod t cs

def csModChainAux (mods : List (List Char)) : Nat → List Char → List (List Char)
  | 0, cs => [cs]
  | n + 1, cs =>
      cs :: (match csTryMod mods cs with
             | some r => csModChainAux mods n r
             | none => [])

/-- All positions reachable by the greedy modifier star, shallowest first
(every modifier literal consumes at least one character, so `cs.length`
fuel never runs out before the chain ends). -/
def csModChain (mods : List (List Char)) (cs : List Char) : List (List Char) :=
  csModChainAux mods cs.length cs

/-- `keyword\s+\w+` at a star position. -/
def csKwHead (kw : List Char) (p : List Char) : Bool :=
  match tryKeyword kw p with
  | some r =>
      match r with
      | c :: _ => isWordChar c
      | [] => false
  | none => false

/-- `CSharpAnalyzer._is_type_definition`. -/
def csIsTypeDefinition (line : String) : Bool :=
  (["class".data, "interface".data, "struct".data, "enum".data,
    "record".data].any fun kw =>
    (csModChain csTypeMods line.data).any fun p => csKwHead kw p)

/-- `(\w+)\s+(\w+)(?:\s*:\s*(.+))?`: the trailing optional group is dropped
when no colon follows, or when nothing at all follows the colon; an
all-whitespace remainder keeps only its last character (`\s*` backs off one
step for the mandatory `.+`). -/
def csTypeCore (cs : List Char) : Option (String × String × Option String) :=
  let s1 := cs.span isWordChar
  if s1.1 = [] then none else
  let s2 := s1.2.span Char.isWhitespace
  if s2.1 = [] then none else
  let s3 := s2.2.span isWordChar
  if s3.1 = [] then none else
  match s3.2.dropWhile Char.isWhitespace with
  | ':' :: r2 =>
      let v := r2.dropWhile Char.isWhitespace
      if v = [] then
        if r2 = [] then some (⟨s1.1⟩, ⟨s3.1⟩, none)
        else some (⟨s1.1⟩, ⟨s3.1⟩, some ⟨r2.drop (r2.length - 1)⟩)
      else some (⟨s1.1⟩, ⟨s3.1⟩, some ⟨v⟩)
  | _ => some (⟨s1.1⟩, ⟨s3.1⟩, none)

/-- `_parse_type_definition`'s signature regex, star positions greedy
(deepest) first. -/
def csMatchTypeDef (cs : List Char) : Option (String × String × Option String) :=
  firstMatch csTypeCore (csModChain csTypeMods cs).reverse

/-- `re.match` of the attribute pattern on a `[`-led line: the comma-split,
stripped attribute names, empty when the pattern does not match (the
character class excludes the closing bracket, so the greedy group is
deterministic). -/
def csAttrLine (l : String) : List String :=
  match (pyStrip l).data with
  | '[' :: r =>
      (let s := r.span fun c =>
        isWordChar c || c = ',' || Char.isWhitespace c || c = '(' || c = ')'
       if s.1 = [] then []
       else
        match s.2 with
        | ']' :: _ => (pySplit ',' ⟨s.1⟩).map pyStrip
        | _ => [])
  | _ => []

/-- The attribute back-scan shared by `_parse_type_definition` and
`_parse_method`: while the previous line's strip starts with `[`, collect
its attributes and decrement `start`; returns the final `start` and the
attributes in visit order (nearest line first). -/
def csAttrScanAux (lines : List String) : Nat → Nat × List String
  | 0 => (0, [])
  | s + 1 =>
      if pyStartsWith (pyStrip ((lines.get? s).getD "")) "[" then
        (let r := csAttrScanAux lines s
         (r.1, csAttrLine ((lines.get? s).getD "") ++ r.2))
      else (s + 1, [])

def upperChar (c : Char) : Char :=
  if 'a' ≤ c && c ≤ 'z' then Char.ofNat (c.toNat - 32) else c

/-- `str.capitalize()` (ASCII). -/
def csCapitalize (s : String) : String :=
  match s.data with
  | [] => ""
  | c :: t => ⟨upperChar c :: t.map lowerChar⟩

structure CsClass where
  name : String
  bases : List String
  doc : String
  lineStart : Nat
  lineEnd : Nat
  colEnd : Nat
deriving DecidableEq

/-- `CSharpAnalyzer._parse_type_definition`: the attribute back-scan (which
can move `start` before the caller's cursor), the signature regex on the
original line, the brace scan restarting at the moved `start + 1` with the
initial count taken from the original line, and the final `len(lines[i])`
(an out-of-range read when the braces never rebalance). -/
def csParseTypeDefinition (ns : Option String) (lines : List String)
    (start : Nat) : Except String (Option (CsClass × Nat)) :=
  let line := pyStrip ((lines.get? start).getD "")
  let sc := csAttrScanAux lines start
  match csMatchTypeDef line.data with
  | none => .ok none
  | some (kind, nm, inh) =>
      let i := sc.1 + 1 +
        scanBracesOff (if '{' ∈ line.data then 1 else 0)
          (lines.drop (sc.1 + 1))
      match lines.get? i with
      | none => .error "IndexError: list index out of range"
      | some li =>
          .ok (some (⟨(match ns with
                       | some n => if n = "" then nm else n ++ "." ++ nm
                       | none => nm),
            (match inh with
             | some s => (pySplit ',' s).map pyStrip
             | none => []),
            csCapitalize kind ++
              (if sc.2 ≠ [] then
                " with attributes: " ++ String.intercalate ", " sc.2
               else ""),
            sc.1, i, li.length⟩, i))

/-- `CSharpAnalyzer._parse_namespace`: the namespace-header regex, then
either the header line itself when it holds the opening brace, or a scan
for the first following line that does. -/
def csParseNamespace (lines : List String) (start : Nat) :
    Option (String × Nat) :=
  let line := pyStrip ((lines.get? start).getD "")
  match tryKeyword "namespace".data line.data with
  | none => none
  | some r =>
      (let s := r.span fun c => isWordChar c || c = '.'
       if s.1 = [] then none
       else if '{' ∈ line.data then some (⟨s.1⟩, start)
       else some (⟨s.1⟩, start + 1 +
         scanUntilOff (fun l => pyIn "\x7b" l) (lines.drop (start + 1))))

/-- The signature capture class shared by the method and member regexes
(word characters, angle and square brackets, comma, whitespace). -/
def csSigChar (c : Char) : Bool :=
  isWordChar c || c = '<' || c = '>' || c = '[' || c = ']' || c = ',' ||
    Char.isWhitespace c

/-- `\s+\w+\s*\(` . -/
def csMethodTail (cs : List Char) : Bool :=
  let s1 := cs.span Char.isWhitespace
  if s1.1 = [] then false else
  let s2 := s1.2.span isWordChar
  if s2.1 = [] then false else
  match s2.2.dropWhile Char.isWhitespace with
  | '(' :: _ => true
  | _ => false

/-- The member-regex tail: at least one whitespace, a word, optional
whitespace, then an opening brace, semicolon or equals sign. -/
def csMemberTail (cs : List Char) : Bool :=
  let s1 := cs.span Char.isWhitespace
  if s1.1 = [] then false else
  let s2 := s1.2.span isWordChar
  if s2.1 = [] then false else
  match s2.2.dropWhile Char.isWhitespace with
  | c :: _ => c = '{' || c = ';' || c = '='
  | [] => false

/-- A nonempty `csSigChar` block followed by `tail`, at some split point
(the block class contains whitespace, so the regex engine's backtracking
is exactly this existential). -/
def csSigSplit (tail : List Char → Bool) (p : List Char) : Bool :=
  (List.range p.length).any fun j =>
    (p.take (j + 1)).all csSigChar && tail (p.drop (j + 1))

/-- `CSharpAnalyzer._is_method_definition`. -/
def csIsMethodDefinition (line : String) : Bool :=
  (csModChain csMethodMods line.data).any fun p => csSigSplit csMethodTail p

/-- `CSharpAnalyzer._is_member_definition`. -/
def csIsMemberDefinition (line : String) : Bool :=
  (csModChain csMemberMods line.data).any fun p => csSigSplit csMemberTail p

/-- The method-tail of `_parse_method`'s signature regex: whitespace, a
word, optional whitespace, an opening parenthesis, and — for the lazy
parameter group — some closing parenthesis after it. -/
def csMethodParen (cs : List Char) : Bool :=
  let s1 := cs.span Char.isWhitespace
  if s1.1 = [] then false else
  let s2 := s1.2.span isWordChar
  if s2.1 = [] then false else
  match s2.2.dropWhile Char.isWhitespace with
  | '(' :: r => r.contains ')'
  | _ => false

/-- Whether `_parse_method`'s signature regex matches: its optional leading
group draws from a subset of the capture class, so a match exists exactly
when a nonempty capture block is followed by `csMethodParen`. -/
def csParseMethodMatches (cs : List Char) : Bool :=
  (List.range cs.length).any fun j =>
    (cs.take (j + 1)).all csSigChar && csMethodParen (cs.drop (j + 1))

/-- `CSharpAnalyzer._parse_method`, cursor and crash behaviour: attribute
back-scan, signature match on the original line, then the end scan from
the moved `start` (a brace scan when the original line holds the opening
brace, otherwise a scan from `start` itself for the next line holding
one), and the final `len(lines[i])` out-of-range read when the scan runs
off the end. -/
def csParseMethodIndex (lines : List String) (start : Nat) :
    Except String (Option Nat) :=
  let line := pyStrip ((lines.get? start).getD "")
  let s1 := (csAttrScanAux lines start).1
  if csParseMethodMatches line.data then
    (if '{' ∈ line.data then
      (let e := s1 + 1 + scanBracesOff 1 (lines.drop (s1 + 1))
       match lines.get? e with
       | none => .error "IndexError: list index out of range"
       | some _ => .ok (some e))
     else
      (let e := s1 + scanUntilOff (fun l => pyIn "\x7b" l) (lines.drop s1)
       match lines.get? e with
       | none => .error "IndexError: list index out of range"
       | some _ => .ok (some e)))
  else .ok none

/-- One iteration of `CSharpAnalyzer.analyze`'s while loop, tracking the
namespace state and the cursor.  The member branch models
`_parse_member`'s read of the undefined name `lines` (a `NameError` as
soon as `line_num > 0`); the final `i += 1` is folded into every
branch. -/
def csLoopStep (ns : Option String) (lines : List String) (i : Nat) :
    Except String (Option String × Nat) :=
  let line := pyStrip ((lines.get? i).getD "")
  if pyStartsWith line "using " then .ok (ns, i + 1)
  else if pyStartsWith line "namespace " then
    match csParseNamespace lines i with
    | some r => .ok (some r.1, r.2 + 1)
    | none => .ok (ns, i + 1)
  else if csIsTypeDefinition line then
    match csParseTypeDefinition ns lines i with
    | .error e => .error e
    | .ok (some r) => .ok (ns, r.2 + 1)
    | .ok none => .ok (ns, i + 1)
  else if csIsMethodDefinition line then
    match csParseMethodIndex lines i with
    | .error e => .error e
    | .ok (some e) => .ok (ns, e + 1)
    | .ok none => .ok (ns, i + 1)
  else if csIsMemberDefinition line then
    if 0 < i then .error "NameError: name 'lines' is not defined"
    else .ok (ns, i + 1)
  else .ok (ns, i + 1)

/-- `CSharpAnalyzer.analyze`'s while loop with a fuel bound: `none` when
the fuel runs out before the loop exits, otherwise the loop's outcome. -/
def csLoopIter (lines : List String) : Nat → Option String → Nat →
    Option (Except String Unit)
  | 0, _, _ => none
  | n + 1, ns, i =>
      if i < lines.length then
        match csLoopStep ns lines i with
        | .error e => some (.error e)
        | .ok r => csLoopIter lines n r.1 r.2
      else some (.ok ())

/-- The C++ and JavaScript line-scanner loops do strictly advance:
Each successful step of `CppAnalyzer.analyze`'s dispatch (`cppStep`)
returns an index strictly beyond the current one, and
`JavaScriptAnalyzer.analyze`'s per-iteration cursor update
(`jsNextIndex`) is strictly increasing, so both loops are bounded by the
input length and terminate even on unbalanced-brace input. -/
theorem scanner_cursor_advances :
    (∀ (lines : List String) (acc acc' : CppAcc) (i n : Nat),
        cppStep lines acc i = .ok (acc', n) → i < n) ∧
    (∀ (lines : List String) (i : Nat), i < jsNextIndex lines i) := by
  constructor
  · exact fun lines acc acc' i n h => cppStep_gt lines acc i acc' n h
  · intro lines i
    cases hm : jsExtractJsdoc lines i with
    | none => simp only [jsNextIndex, hm]; omega
    | some r =>
        have hgt := jsExtractJsdoc_gt lines i r.1 r.2 (by rw [hm])
        simp only [jsNextIndex, hm]
        omega

/-- Concrete instantiation of `scanner_cursor_advances`: one C++ step on a
variable-declaration line moves the cursor from 0 to 1, and the JS cursor
advances past a one-line JSDoc block. -/
theorem scanner_cursor_advances_witness :
    cppStep ["int x = 5;"] ⟨[], [], [], [], []⟩ 0 =
        .ok (⟨[], [], [⟨"x", "int", some "5", "global", 0, 10⟩], [], []⟩, 1) ∧
    (0 : Nat) < 1 ∧
    (0 : Nat) < jsNextIndex ["/** a */", "function f() {}"] 0 :=
  ⟨by decide,
   scanner_cursor_advances.1 ["int x = 5;"] ⟨[], [], [], [], []⟩
     ⟨[], [], [⟨"x", "int", some "5", "global", 0, 10⟩], [], []⟩ 0 1
     (by decide),
   scanner_cursor_advances.2 ["/** a */", "function f() {}"] 0⟩

/-- **C6.** Refuted: not every heuristic line-scanner cursor strictly
advances.  In `CSharpAnalyzer.analyze`, on the three lines
`[A]` / `[B] }` / `class Foo {`, the type-definition branch at cursor 2
back-scans over the two attribute lines to `start = 0`, the brace scan
restarted at line 1 balances immediately (the stray `}`), and
`_parse_type_definition` returns end index 1, so the loop sets the cursor
to `1 + 1 = 2` again: the step function is stalled at 2 and the loop
never finishes within any fuel bound — `analyze` diverges on this
three-line input. -/
theorem csharp_scanner_stalls :
    csLoopStep none ["[A]", "[B] \x7d", "class Foo \x7b"] 2 =
        .ok (none, 2) ∧
    ∀ n : Nat,
      csLoopIter ["[A]", "[B] \x7d", "class Foo \x7b"] n none 0 = none := by
  constructor
  · decide
  · have key : ∀ m : Nat,
        csLoopIter ["[A]", "[B] \x7d", "class Foo \x7b"] m none 2 = none := by
      intro m
      induction m with
      | zero => rfl
      | succ k ih => exact ih
    intro n
    exact match n with
      | 0 => rfl
      | 1 => rfl
      | (m + 2) => key m

/-- C5: refuted for the C++ scanner — on a single-line function definition
whose opening brace never rebalances, `CppAnalyzer.analyze`'s brace scan
runs to end-of-input and `_parse_function` then reads `lines[i]` out of
range, so `analyze` raises `IndexError` instead of returning a partial
result. -/
theorem cpp_unbalanced_brace_raises :
    cppAnalyze "void foo() \x7b" =
      .error "IndexError: list index out of range" := by
  have hL : pySplit '\n' "void foo() \x7b" = ["void foo() \x7b"] := by decide
  have hstep : cppStep ["void foo() \x7b"] ⟨[], [], [], [], []⟩ 0 =
      .error "IndexError: list index out of range" := by decide
  rw [cppAnalyze, hL, cppIter.eq_def]
  split
  · split
    next e he => rw [hstep] at he; cases he; rfl
    next acc' n he => rw [hstep] at he; cases he
  · next h => exact absurd (by decide) h

end PA
